import Mathlib

/-!
# Verification of the sports-tracker categorization engine

A shallow embedding, in Lean 4, of the team/game categorization engine,
the versioned big-game settings store with its migrations, the TTL
response cache, the watch-party encode/decode pair and the favorite-team
list of the sports-tracker repository (`src/shared.js` and the settings
page). JavaScript `null`/absent values are modelled with `Option`,
JavaScript objects with insertion-ordered association lists, the
browser's `localStorage`/`sessionStorage` with explicit state records,
and the wall clock with an explicit `now : Int` argument (epoch
milliseconds). Platform built-ins the code calls (`JSON.stringify`,
`JSON.parse`, `btoa`, `atob`) are embedded concretely for the value
shapes the program stores.
-/

namespace SportsTracker

/-! ## Team levels and game categories (`shared.js`, `TEAM_LEVELS` / `GAME_CATEGORIES`) -/

/-- `TEAM_LEVELS.TOP_TIER` from `shared.js`. -/
def TOP_TIER : String := "top-tier"

/-- `TEAM_LEVELS.THINKIN_SUPEY` (favorite + top tier) from `shared.js`. -/
def THINKIN_SUPEY : String := "thinkin-supey"

/-- `TEAM_LEVELS.YA_NEVER_KNOW` (favorite + not top tier) from `shared.js`. -/
def YA_NEVER_KNOW : String := "ya-never-know"

/-- `GAME_CATEGORIES.ROB_LOWE` from `shared.js`. -/
def ROB_LOWE : String := "rob-lowe"

/-- `GAME_CATEGORIES.PLAYOFF_PREVIEW` from `shared.js`. -/
def PLAYOFF_PREVIEW : String := "playoff-preview"

/-- `GAME_CATEGORIES.MEASURING_STICK` from `shared.js`. -/
def MEASURING_STICK : String := "measuring-stick"

/-- `GAME_CATEGORIES.BEAT_EM_OFF` from `shared.js`. -/
def BEAT_EM_OFF : String := "beat-em-off"

/-- `GAME_CATEGORIES.HOUSE_DIVIDED` from `shared.js`. -/
def HOUSE_DIVIDED : String := "house-divided"

/-! ## Game categorization (`categorizeGame`, `shared.js` lines 944-986) -/

/-- `categorizeGame(homeTeamCategory, awayTeamCategory)` from `shared.js`.
A team category is `null` or one of the tier strings; `none` models
JavaScript `null` (the code's `!homeTeamCategory` test is falsy exactly
for `null` on the tier domain). -/
def categorizeGame (homeTeamCategory awayTeamCategory : Option String) : Option String :=
  let isHomeThinkinSupey := homeTeamCategory == some THINKIN_SUPEY
  let isAwayThinkinSupey := awayTeamCategory == some THINKIN_SUPEY
  let isHomeYaNeverKnow := homeTeamCategory == some YA_NEVER_KNOW
  let isAwayYaNeverKnow := awayTeamCategory == some YA_NEVER_KNOW
  let isHomeFavorite := isHomeThinkinSupey || isHomeYaNeverKnow
  let isAwayFavorite := isAwayThinkinSupey || isAwayYaNeverKnow
  -- Note: TOP_TIER here means non-favorite top tier only
  let isHomeTopTierOnly := homeTeamCategory == some TOP_TIER
  let isAwayTopTierOnly := awayTeamCategory == some TOP_TIER
  -- House Divided: any two favorites playing each other (highest priority)
  if isHomeFavorite && isAwayFavorite then
    some HOUSE_DIVIDED
  -- Playoff Preview: Top Tier (non-favorite) vs Thinkin Supey
  else if (isHomeTopTierOnly && isAwayThinkinSupey) || (isAwayTopTierOnly && isHomeThinkinSupey) then
    some PLAYOFF_PREVIEW
  -- Rob Lowe: Two top tiers (neither is a favorite)
  else if isHomeTopTierOnly && isAwayTopTierOnly then
    some ROB_LOWE
  -- Measuring Stick: Ya Never Know vs Top Tier (non-favorite)
  else if (isHomeYaNeverKnow && isAwayTopTierOnly) || (isAwayYaNeverKnow && isHomeTopTierOnly) then
    some MEASURING_STICK
  else
    -- Beat Em Off: favorite vs regular team
    let isHomeRegular := homeTeamCategory == none
    let isAwayRegular := awayTeamCategory == none
    if isHomeFavorite && isAwayRegular then some BEAT_EM_OFF
    else if isAwayFavorite && isHomeRegular then some BEAT_EM_OFF
    else none

/-- The spec's ordered rule table for game categorization, written from the
spec's words (strict ordered precedence; a favorite tier is `thinkin-supey`
or `ya-never-know`): house-divided if both favorites, else playoff-preview
if top-tier vs thinkin-supey, else rob-lowe if both top-tier, else
measuring-stick if ya-never-know vs top-tier, else beat-em-off if a
favorite vs null, else null. -/
def specRuleTable (homeTier awayTier : Option String) : Option String :=
  let fav := fun (t : Option String) => t == some THINKIN_SUPEY || t == some YA_NEVER_KNOW
  if fav homeTier && fav awayTier then some HOUSE_DIVIDED
  else if (homeTier == some TOP_TIER && awayTier == some THINKIN_SUPEY) ||
          (awayTier == some TOP_TIER && homeTier == some THINKIN_SUPEY) then some PLAYOFF_PREVIEW
  else if homeTier == some TOP_TIER && awayTier == some TOP_TIER then some ROB_LOWE
  else if (homeTier == some YA_NEVER_KNOW && awayTier == some TOP_TIER) ||
          (awayTier == some YA_NEVER_KNOW && homeTier == some TOP_TIER) then some MEASURING_STICK
  else if (fav homeTier && awayTier == none) || (fav awayTier && homeTier == none) then some BEAT_EM_OFF
  else none

/-- The four possible team tiers a game argument can take. -/
def tierDomain : List (Option String) :=
  [none, some TOP_TIER, some THINKIN_SUPEY, some YA_NEVER_KNOW]

/-- C1: on every pair drawn from the tier domain, `categorizeGame` returns
exactly the spec's ordered rule-table result, is symmetric under swapping
home and away, and a (top-tier, thinkin-supey) pair yields playoff-preview
(never rob-lowe) in either argument order. -/
theorem categorizeGame_matches_rule_table (h a : Option String)
    (hh : h ∈ tierDomain) (ha : a ∈ tierDomain) :
    categorizeGame h a = specRuleTable h a ∧
    categorizeGame h a = categorizeGame a h ∧
    categorizeGame (some TOP_TIER) (some THINKIN_SUPEY) = some PLAYOFF_PREVIEW ∧
    categorizeGame (some THINKIN_SUPEY) (some TOP_TIER) = some PLAYOFF_PREVIEW := by
  fin_cases hh <;> fin_cases ha <;> exact ⟨by decide, by decide, by decide, by decide⟩

/-- Witness for C1 at the (top-tier, thinkin-supey) pair. -/
theorem categorizeGame_matches_rule_table_witness :
    categorizeGame (some TOP_TIER) (some THINKIN_SUPEY) =
      specRuleTable (some TOP_TIER) (some THINKIN_SUPEY) ∧
    categorizeGame (some TOP_TIER) (some THINKIN_SUPEY) =
      categorizeGame (some THINKIN_SUPEY) (some TOP_TIER) ∧
    categorizeGame (some TOP_TIER) (some THINKIN_SUPEY) = some PLAYOFF_PREVIEW ∧
    categorizeGame (some THINKIN_SUPEY) (some TOP_TIER) = some PLAYOFF_PREVIEW :=
  categorizeGame_matches_rule_table (some TOP_TIER) (some THINKIN_SUPEY)
    (by decide) (by decide)

/-! ## Team categorization (`categorizeTeam`, `shared.js` lines 923-937) -/

/-- A JavaScript id value: the ESPN API may deliver team ids as strings or
numbers, and `categorizeTeam` normalizes both with `String(...)`. -/
inductive JSVal where
  | str (s : String)
  | num (n : Int)
deriving DecidableEq

/-- JavaScript `String(v)` on an id value (decimal rendering for numbers). -/
def jsIdString : JSVal → String
  | .str s => s
  | .num n => toString n

/-- `categorizeTeam(teamId, topTierTeamIds, favoriteTeamIds)` from
`shared.js`: converts the id and both lists to strings before membership
tests. -/
def categorizeTeam (teamId : JSVal) (topTierTeamIds favoriteTeamIds : List JSVal) :
    Option String :=
  let teamIdStr := jsIdString teamId
  let isTopTier := (topTierTeamIds.map jsIdString).contains teamIdStr
  let isFavorite := (favoriteTeamIds.map jsIdString).contains teamIdStr
  if isFavorite && isTopTier then some THINKIN_SUPEY
  else if isFavorite && !isTopTier then some YA_NEVER_KNOW
  else if isTopTier then some TOP_TIER
  else none

/-- C2: `categorizeTeam` is total and, after normalizing the id and both
lists to strings, returns thinkin-supey when the id is in both sets,
ya-never-know when in the favorite set only, top-tier when in the top-tier
set only, and null when in neither; empty sets yield null for every team. -/
theorem categorizeTeam_characterization (teamId : JSVal)
    (topTierTeamIds favoriteTeamIds : List JSVal) :
    categorizeTeam teamId topTierTeamIds favoriteTeamIds =
      (if jsIdString teamId ∈ favoriteTeamIds.map jsIdString then
        if jsIdString teamId ∈ topTierTeamIds.map jsIdString then some THINKIN_SUPEY
        else some YA_NEVER_KNOW
      else if jsIdString teamId ∈ topTierTeamIds.map jsIdString then some TOP_TIER
      else none) ∧
    categorizeTeam teamId [] [] = none := by
  constructor
  · simp only [categorizeTeam, List.contains, List.elem_eq_mem]
    by_cases hf : jsIdString teamId ∈ favoriteTeamIds.map jsIdString <;>
      by_cases ht : jsIdString teamId ∈ topTierTeamIds.map jsIdString <;>
      simp [hf, ht]
  · simp [categorizeTeam]

/-! ## Big-game settings store (`shared.js` lines 740-883)

The settings document lives in `localStorage` under
`sports-tracker-big-game-settings`; `getBigGameSettings` reads it through
a module-level cache, migrates outdated documents and persists the
migrated document with `saveBigGameSettings`. A JavaScript object mapping
competition keys to category lists is modelled as an insertion-ordered
association list (`aset` updates in place or appends, like property
assignment). -/

/-- A category list for one competition. -/
abbrev CatList := List String

/-- A JavaScript object mapping competition keys to category lists,
modelled as an insertion-ordered association list. -/
abbrev PerComp := List (String × CatList)

/-- Property read `obj[k]`: `none` when the key is absent. -/
def alookup (m : PerComp) (k : String) : Option CatList :=
  match m with
  | [] => none
  | (k', v) :: rest => if k' == k then some v else alookup rest k

/-- Property write `obj[k] = v`: updates in place, appends when absent. -/
def aset (m : PerComp) (k : String) (v : CatList) : PerComp :=
  match m with
  | [] => [(k, v)]
  | (k', v') :: rest => if k' == k then (k, v) :: rest else (k', v') :: aset rest k v

/-- `SETTINGS_SCHEMA_VERSION` from `shared.js` (version 3: Champions League
uses unique CL-specific categories). -/
def SETTINGS_SCHEMA_VERSION : Int := 3

/-- The keys of `COMPETITIONS` from `shared.js` in declaration
(= `Object.keys`) order. -/
def COMPETITIONS_KEYS : List String :=
  ["premier-league", "champions-league", "fa-cup", "league-cup", "nba", "nhl"]

/-- `ALL_CATEGORIES` from `shared.js` (generic category set). -/
def ALL_CATEGORIES : CatList :=
  ["rob-lowe", "playoff-preview", "measuring-stick", "beat-em-off", "house-divided"]

/-- `CL_CATEGORIES` from `shared.js` (Champions-League-specific set). -/
def CL_CATEGORIES : CatList :=
  ["cl-favorite", "cl-top-english", "cl-other-english", "cl-english-derby"]

/-- A parsed settings document. JavaScript object fields that may be
absent are `Option`s: `enabledCategories` is the legacy flat format's
field, `perCompetition` the current format's. -/
structure SettingsDoc where
  schemaVersion : Option Int
  enabledCategories : Option CatList
  perCompetition : Option PerComp
deriving DecidableEq

/-- `DEFAULT_BIG_GAME_SETTINGS` from `shared.js`. -/
def DEFAULT_BIG_GAME_SETTINGS : SettingsDoc :=
  { schemaVersion := some SETTINGS_SCHEMA_VERSION
    enabledCategories := none
    perCompetition := some
      [("premier-league", ["rob-lowe", "playoff-preview", "measuring-stick", "beat-em-off", "house-divided"]),
       ("champions-league", ["cl-favorite", "cl-top-english", "cl-other-english", "cl-english-derby"]),
       ("fa-cup", ["rob-lowe", "playoff-preview", "measuring-stick", "beat-em-off", "house-divided"]),
       ("league-cup", ["rob-lowe", "playoff-preview", "measuring-stick", "beat-em-off", "house-divided"]),
       ("nba", ["rob-lowe", "playoff-preview", "measuring-stick", "beat-em-off", "house-divided"]),
       ("nhl", ["rob-lowe", "playoff-preview", "measuring-stick", "beat-em-off", "house-divided"])] }

/-- The value stored in `localStorage` under the settings key: absent, a
string `JSON.parse` rejects, or a parsed document (`JSON.stringify` of a
document always re-parses to the same document). -/
inductive StoredSettings where
  | absent
  | malformed
  | doc (d : SettingsDoc)
deriving DecidableEq

/-- A watch-party session (`sessionStorage`); only its `bigGames` field
matters to the settings read path. `bigGames := none` models an absent or
null field (falsy in the code's `watchParty && watchParty.bigGames`). -/
structure WPSession where
  bigGames : Option PerComp
deriving DecidableEq

/-- The state the settings functions touch: the persisted document, the
module-level read cache `_bigGameSettingsCache`, the watch-party session,
and a count of `saveBigGameSettings` calls (each call is one
`localStorage.setItem`). -/
structure SettingsState where
  stored : StoredSettings
  cache : Option SettingsDoc
  watchParty : Option WPSession
  saves : Nat
deriving DecidableEq

/-- `saveBigGameSettings(settings)` from `shared.js`: updates the module
cache and writes the document to `localStorage`, unconditionally. -/
def saveBigGameSettings (st : SettingsState) (settings : SettingsDoc) : SettingsState :=
  { st with cache := some settings, stored := .doc settings, saves := st.saves + 1 }

/-- The competition-existence loop of `getBigGameSettings`: for each known
competition absent from the map, add its default category set (the CL set
for `champions-league`) and mark `needsSave`. -/
def ensureCompetitions (keys : List String) (pc : PerComp) (needsSave : Bool) :
    PerComp × Bool :=
  match keys with
  | [] => (pc, needsSave)
  | comp :: rest =>
    match alookup pc comp with
    | some _ => ensureCompetitions rest pc needsSave
    | none =>
      ensureCompetitions rest
        (aset pc comp (if comp == "champions-league" then CL_CATEGORIES else ALL_CATEGORIES))
        true

/-- The version-2 migration loop: push `"playoff-preview"` onto every
competition's list that does not already include it. (Every iterated key
is present by the time this runs; an absent key is left unchanged.) -/
def addPlayoffPreview (keys : List String) (pc : PerComp) : PerComp :=
  match keys with
  | [] => pc
  | comp :: rest =>
    let pc' :=
      match alookup pc comp with
      | some l => if l.contains "playoff-preview" then pc else aset pc comp (l ++ ["playoff-preview"])
      | none => pc
    addPlayoffPreview rest pc'

/-- `const savedVersion = parsed.schemaVersion || 1` (an absent or falsy
version number reads as 1). -/
def savedVersionOf (parsed : SettingsDoc) : Int :=
  match parsed.schemaVersion with
  | none => 1
  | some v => if v == 0 then 1 else v

/-- The versioned-document branch of `getBigGameSettings`: `savedVersion =
parsed.schemaVersion || 1`, the competition-existence loop, the version-2
and version-3 migrations, then the version stamp. Returns the document the
call returns and whether it called `saveBigGameSettings`. -/
def migrateVersioned (parsed : SettingsDoc) (pc : PerComp) : SettingsDoc × Bool :=
  let savedVersion : Int := savedVersionOf parsed
  let step1 := ensureCompetitions COMPETITIONS_KEYS pc false
  let pc1 := step1.1
  let pc2 := if savedVersion < 2 then addPlayoffPreview COMPETITIONS_KEYS pc1 else pc1
  let needsSave2 := if savedVersion < 2 then true else step1.2
  let pc3 := if savedVersion < 3 then aset pc2 "champions-league" CL_CATEGORIES else pc2
  let needsSave3 := if savedVersion < 3 then true else needsSave2
  if needsSave3 || savedVersion < SETTINGS_SCHEMA_VERSION then
    ({ parsed with schemaVersion := some SETTINGS_SCHEMA_VERSION, perCompetition := some pc3 }, true)
  else
    ({ parsed with perCompetition := some pc3 }, false)

/-- The legacy-format migration loop: apply the old flat
`enabledCategories` list to every known competition. -/
def legacyPerCompetition (keys : List String) (ecs : CatList) (acc : PerComp) : PerComp :=
  match keys with
  | [] => acc
  | comp :: rest => legacyPerCompetition rest ecs (aset acc comp ecs)

/-- The document `getBigGameSettings` returns while a watch-party overlay
with a `bigGames` map is active. -/
def watchPartyDoc (bg : PerComp) : SettingsDoc :=
  { schemaVersion := some SETTINGS_SCHEMA_VERSION
    enabledCategories := none
    perCompetition := some bg }

/-- The non-watch-party body of `getBigGameSettings`: cached copy if
present, else read and (when outdated) migrate and persist the stored
document, else a fresh copy of the defaults. Returns the document and the
new state. -/
def getBigGameSettingsLocal (st : SettingsState) : SettingsDoc × SettingsState :=
  match st.cache with
  | some c => (c, st)
  | none =>
    match st.stored with
    | .doc parsed =>
      match parsed.enabledCategories, parsed.perCompetition with
      | some ecs, none =>
        -- Migration: old format (enabledCategories at root) to perCompetition
        let migrated : SettingsDoc :=
          { schemaVersion := some SETTINGS_SCHEMA_VERSION
            enabledCategories := none
            perCompetition := some (legacyPerCompetition COMPETITIONS_KEYS ecs []) }
        let st1 := saveBigGameSettings st migrated
        (migrated, { st1 with cache := some migrated })
      | _, some pc =>
        let r := migrateVersioned parsed pc
        let st1 := if r.2 then saveBigGameSettings st r.1 else st
        (r.1, { st1 with cache := some r.1 })
      | none, none =>
        (DEFAULT_BIG_GAME_SETTINGS, { st with cache := some DEFAULT_BIG_GAME_SETTINGS })
    | _ =>
      (DEFAULT_BIG_GAME_SETTINGS, { st with cache := some DEFAULT_BIG_GAME_SETTINGS })

/-- `getBigGameSettings()` from `shared.js`: an active watch-party session
with a truthy `bigGames` map is returned directly (read-only); otherwise
the local read path runs. -/
def getBigGameSettings (st : SettingsState) : SettingsDoc × SettingsState :=
  match st.watchParty with
  | some wp =>
    match wp.bigGames with
    | some bg => (watchPartyDoc bg, st)
    | none => getBigGameSettingsLocal st
  | none => getBigGameSettingsLocal st

/-- Property lookup of a settings document's per-competition map. -/
def docLookup (d : SettingsDoc) (k : String) : Option CatList :=
  match d.perCompetition with
  | some pc => alookup pc k
  | none => none

/-- Every known competition key is present in the document's map. -/
def allCompetitionsPresent (d : SettingsDoc) : Bool :=
  match d.perCompetition with
  | some pc => COMPETITIONS_KEYS.all (fun k => (alookup pc k).isSome)
  | none => false

/-- A state holding only a persisted value: empty read cache, no
watch-party session, no writes counted yet. -/
def freshState (sv : StoredSettings) : SettingsState :=
  { stored := sv, cache := none, watchParty := none, saves := 0 }

/-- Invalidating the module-level read cache (`invalidateSettingsCache`). -/
def reloadState (st : SettingsState) : SettingsState :=
  { st with cache := none }

theorem alookup_aset (m : PerComp) (k : String) (v : CatList) (k' : String) :
    alookup (aset m k v) k' = if k = k' then some v else alookup m k' := by
  induction m with
  | nil => by_cases h : k = k' <;> simp [aset, alookup, h]
  | cons hd tl ih =>
    obtain ⟨k₀, v₀⟩ := hd
    by_cases h0 : k₀ = k <;> by_cases h1 : k₀ = k' <;> by_cases h2 : k = k' <;>
      simp_all [aset, alookup]

theorem isSome_alookup_aset (m : PerComp) (k : String) (v : CatList) (k' : String)
    (h : (alookup m k').isSome) : (alookup (aset m k v) k').isSome := by
  rw [alookup_aset]
  by_cases hk : k = k' <;> simp [hk, h]

theorem ensureCompetitions_flag_true (keys : List String) (pc : PerComp) :
    (ensureCompetitions keys pc true).2 = true := by
  induction keys generalizing pc with
  | nil => rfl
  | cons comp rest ih =>
    cases h : alookup pc comp <;> simp [ensureCompetitions, h, ih]

theorem ensureCompetitions_isSome (keys : List String) (pc : PerComp) (b : Bool)
    (k : String) (h : k ∈ keys ∨ (alookup pc k).isSome) :
    (alookup (ensureCompetitions keys pc b).1 k).isSome := by
  induction keys generalizing pc b with
  | nil =>
    rcases h with h | h
    · exact absurd h (List.not_mem_nil k)
    · simpa [ensureCompetitions] using h
  | cons comp rest ih =>
    cases hc : alookup pc comp with
    | some v =>
      simp only [ensureCompetitions, hc]
      rcases h with h | h
      · rcases List.mem_cons.mp h with h | h
        · exact ih pc b (Or.inr (by simp [h, hc]))
        · exact ih pc b (Or.inl h)
      · exact ih pc b (Or.inr h)
    | none =>
      simp only [ensureCompetitions, hc]
      rcases h with h | h
      · rcases List.mem_cons.mp h with h | h
        · subst h
          exact ih _ true (Or.inr (by rw [alookup_aset]; simp))
        · exact ih _ true (Or.inl h)
      · exact ih _ true (Or.inr (isSome_alookup_aset _ _ _ _ h))

theorem ensureCompetitions_stable (keys : List String) (pc : PerComp) (b : Bool)
    (h : ∀ k ∈ keys, (alookup pc k).isSome) :
    ensureCompetitions keys pc b = (pc, b) := by
  induction keys with
  | nil => rfl
  | cons comp rest ih =>
    have hc := h comp (List.mem_cons_self comp rest)
    obtain ⟨v, hv⟩ := Option.isSome_iff_exists.mp hc
    simp only [ensureCompetitions, hv]
    exact ih fun k hk => h k (List.mem_cons_of_mem comp hk)

theorem ensureCompetitions_flag_false (keys : List String) (pc : PerComp) (b : Bool)
    (h : (ensureCompetitions keys pc b).2 = false) :
    ensureCompetitions keys pc b = (pc, b) ∧ ∀ k ∈ keys, (alookup pc k).isSome := by
  induction keys generalizing pc b with
  | nil => exact ⟨rfl, by simp⟩
  | cons comp rest ih =>
    cases hc : alookup pc comp with
    | some v =>
      simp only [ensureCompetitions, hc] at h ⊢
      obtain ⟨heq, hall⟩ := ih pc b h
      refine ⟨heq, fun k hk => ?_⟩
      rcases List.mem_cons.mp hk with hk | hk
      · simp [hk, hc]
      · exact hall k hk
    | none =>
      exfalso
      simp only [ensureCompetitions, hc] at h
      rw [ensureCompetitions_flag_true] at h
      simp at h

theorem isSome_addPlayoffPreview (keys : List String) (pc : PerComp) (k : String)
    (h : (alookup pc k).isSome) :
    (alookup (addPlayoffPreview keys pc) k).isSome := by
  induction keys generalizing pc with
  | nil => simpa [addPlayoffPreview] using h
  | cons comp rest ih =>
    simp only [addPlayoffPreview]
    cases hc : alookup pc comp with
    | some l =>
      by_cases hl : l.contains "playoff-preview" <;>
        simp only [hl, if_true, if_false] <;>
        exact ih _ (by first | exact h | exact isSome_alookup_aset _ _ _ _ h)
    | none => exact ih _ h

theorem isSome_legacyPerCompetition (keys : List String) (ecs : CatList)
    (acc : PerComp) (k : String) (h : k ∈ keys ∨ (alookup acc k).isSome) :
    (alookup (legacyPerCompetition keys ecs acc) k).isSome := by
  induction keys generalizing acc with
  | nil =>
    rcases h with h | h
    · exact absurd h (List.not_mem_nil k)
    · simpa [legacyPerCompetition] using h
  | cons comp rest ih =>
    simp only [legacyPerCompetition]
    rcases h with h | h
    · rcases List.mem_cons.mp h with h | h
      · subst h
        exact ih _ (Or.inr (by rw [alookup_aset]; simp))
      · exact ih _ (Or.inl h)
    · exact ih _ (Or.inr (isSome_alookup_aset _ _ _ _ h))

theorem settingsDoc_with_perComp_eq (d : SettingsDoc) (pc : PerComp)
    (h : d.perCompetition = some pc) :
    { d with perCompetition := some pc } = d := by
  cases d
  simp_all

/-- The migrated map of `migrateVersioned` contains every known
competition. -/
theorem migrateVersioned_all_present (parsed : SettingsDoc) (pc : PerComp) :
    ∃ pc3, (migrateVersioned parsed pc).1.perCompetition = some pc3 ∧
      ∀ k ∈ COMPETITIONS_KEYS, (alookup pc3 k).isSome := by
  simp only [migrateVersioned]
  set sv : Int := savedVersionOf parsed with hsv
  have h1 : ∀ k ∈ COMPETITIONS_KEYS,
      (alookup (ensureCompetitions COMPETITIONS_KEYS pc false).1 k).isSome :=
    fun k hk => ensureCompetitions_isSome _ _ _ _ (Or.inl hk)
  have h2 : ∀ k ∈ COMPETITIONS_KEYS,
      (alookup (if sv < 2 then
        addPlayoffPreview COMPETITIONS_KEYS (ensureCompetitions COMPETITIONS_KEYS pc false).1
        else (ensureCompetitions COMPETITIONS_KEYS pc false).1) k).isSome := by
    intro k hk
    by_cases h : sv < 2 <;> simp only [h, if_true, if_false]
    · exact isSome_addPlayoffPreview _ _ _ (h1 k hk)
    · exact h1 k hk
  by_cases h3 : sv < 3 <;>
    by_cases h2' : sv < 2 <;>
    simp only [h3, h2', if_true, if_false] <;>
    split <;>
    refine ⟨_, rfl, fun k hk => ?_⟩ <;>
    first
      | exact isSome_alookup_aset _ _ _ _ (by simpa [h2'] using h2 k hk)
      | simpa [h2'] using h2 k hk

/-- On an already fully migrated document (current version, all
competitions present) `migrateVersioned` is the identity and does not
save. -/
theorem migrateVersioned_stable (parsed : SettingsDoc) (pc : PerComp)
    (hver : parsed.schemaVersion = some SETTINGS_SCHEMA_VERSION)
    (hall : ∀ k ∈ COMPETITIONS_KEYS, (alookup pc k).isSome) :
    migrateVersioned parsed pc = ({ parsed with perCompetition := some pc }, false) := by
  have hsv : savedVersionOf parsed = 3 := by
    simp [savedVersionOf, hver, SETTINGS_SCHEMA_VERSION]
  simp only [migrateVersioned, hsv, SETTINGS_SCHEMA_VERSION]
  rw [ensureCompetitions_stable _ _ _ hall]
  norm_num

/-- When `migrateVersioned` does not save, it changed nothing: the result
document is the parsed document (whose map already held every known
competition). -/
theorem migrateVersioned_no_save (parsed : SettingsDoc) (pc : PerComp)
    (h : (migrateVersioned parsed pc).2 = false) :
    (migrateVersioned parsed pc).1 = { parsed with perCompetition := some pc } ∧
      ∀ k ∈ COMPETITIONS_KEYS, (alookup pc k).isSome := by
  revert h
  simp only [migrateVersioned]
  set sv : Int := savedVersionOf parsed with hsv
  intro h
  by_cases h3 : sv < 3
  · simp only [h3, if_true] at h
    simp at h
  · have h2 : ¬ sv < 2 := fun hlt => h3 (lt_trans hlt (by norm_num))
    simp only [h3, h2, if_false] at h ⊢
    split at h
    · rename_i hcond
      exfalso
      revert h
      simp
    · rename_i hcond
      have hflag : (ensureCompetitions COMPETITIONS_KEYS pc false).2 = false := by
        cases hE : (ensureCompetitions COMPETITIONS_KEYS pc false).2
        · rfl
        · exact absurd (by simp [hE]) hcond
      obtain ⟨heq, hall⟩ :=
        ensureCompetitions_flag_false COMPETITIONS_KEYS pc false hflag
      rw [heq]
      refine ⟨?_, hall⟩
      simp [SETTINGS_SCHEMA_VERSION, h3]

/-- The stored document of C3's scenario:
`{ schemaVersion: 1, perCompetition: { premier-league: [rob-lowe] } }`. -/
def v1StoredDoc : SettingsDoc :=
  { schemaVersion := some 1
    enabledCategories := none
    perCompetition := some [("premier-league", ["rob-lowe"])] }

/-- C3: loading the version-1 document `{ schemaVersion: 1,
perCompetition: { premier-league: [rob-lowe] } }` returns a document at
the current `SETTINGS_SCHEMA_VERSION` whose premier-league list contains
both rob-lowe and playoff-preview, backfills every other known
competition with its full default category set (`champions-league` ends
with exactly the four bespoke CL categories), and persists the migrated
document exactly once. -/
theorem settings_v1_migration_scenario :
    (getBigGameSettings (freshState (.doc v1StoredDoc))).1.schemaVersion
        = some SETTINGS_SCHEMA_VERSION ∧
    "rob-lowe" ∈ (docLookup (getBigGameSettings (freshState (.doc v1StoredDoc))).1
        "premier-league").getD [] ∧
    "playoff-preview" ∈ (docLookup (getBigGameSettings (freshState (.doc v1StoredDoc))).1
        "premier-league").getD [] ∧
    docLookup (getBigGameSettings (freshState (.doc v1StoredDoc))).1 "champions-league"
        = some CL_CATEGORIES ∧
    docLookup (getBigGameSettings (freshState (.doc v1StoredDoc))).1 "fa-cup"
        = some ALL_CATEGORIES ∧
    docLookup (getBigGameSettings (freshState (.doc v1StoredDoc))).1 "league-cup"
        = some ALL_CATEGORIES ∧
    docLookup (getBigGameSettings (freshState (.doc v1StoredDoc))).1 "nba"
        = some ALL_CATEGORIES ∧
    docLookup (getBigGameSettings (freshState (.doc v1StoredDoc))).1 "nhl"
        = some ALL_CATEGORIES ∧
    (getBigGameSettings (freshState (.doc v1StoredDoc))).2.saves = 1 ∧
    (getBigGameSettings (freshState (.doc v1StoredDoc))).2.stored
        = .doc (getBigGameSettings (freshState (.doc v1StoredDoc))).1 := by
  decide

/-- C5 counterexample: a read performed while a watch-party overlay with
an empty `bigGames` map is active returns that map as-is, so the returned
document misses every known competition (here `"nba"`): the claim that
every call returns a document covering all of `COMPETITIONS` is false. -/
theorem settings_read_watch_party_misses_competitions :
    (getBigGameSettings
        { stored := .absent, cache := none,
          watchParty := some { bigGames := some [] }, saves := 0 }).1.perCompetition
      = some [] ∧
    "nba" ∈ COMPETITIONS_KEYS ∧
    allCompetitionsPresent
      (getBigGameSettings
        { stored := .absent, cache := none,
          watchParty := some { bigGames := some [] }, saves := 0 }).1 = false := by
  decide

/-- C5 as amended: every fresh read performed with no active watch-party
overlay — for every stored settings document, including absent or
malformed — returns a document whose perCompetition map contains an entry
for every known competition key in `COMPETITIONS`. (With an overlay
active, the overlay's `bigGames` map is returned as-is and may lack
competitions.) -/
theorem settings_read_all_competitions_present (sv : StoredSettings) :
    allCompetitionsPresent (getBigGameSettings (freshState sv)).1 = true := by
  cases sv with
  | absent => decide
  | malformed => decide
  | doc d =>
    obtain ⟨ver, ec, pco⟩ := d
    cases pco with
    | some pc =>
      have hmig := migrateVersioned_all_present ⟨ver, ec, some pc⟩ pc
      obtain ⟨pc3, hpc3, hall⟩ := hmig
      cases ec with
      | some ecs =>
        simp only [getBigGameSettings, getBigGameSettingsLocal, freshState, allCompetitionsPresent]
        rw [hpc3]
        exact List.all_eq_true.mpr fun k hk => by simpa using hall k (by simpa using hk)
      | none =>
        simp only [getBigGameSettings, getBigGameSettingsLocal, freshState, allCompetitionsPresent]
        rw [hpc3]
        exact List.all_eq_true.mpr fun k hk => by simpa using hall k (by simpa using hk)
    | none =>
      cases ec with
      | some ecs =>
        simp only [getBigGameSettings, getBigGameSettingsLocal, freshState, allCompetitionsPresent]
        exact List.all_eq_true.mpr fun k hk => by
          simpa using isSome_legacyPerCompetition COMPETITIONS_KEYS ecs [] k
            (Or.inl (by simpa using hk))
      | none =>
        simp only [getBigGameSettings, getBigGameSettingsLocal, freshState]
        decide

/-- Witness for the amended C5 at an absent stored document. -/
theorem settings_read_all_competitions_present_witness :
    allCompetitionsPresent (getBigGameSettings (freshState .absent)).1 = true :=
  settings_read_all_competitions_present .absent

/-- A state in which a watch-party overlay is active and the user's own
settings document is persisted locally. -/
def wpActiveState : SettingsState :=
  { stored := .doc DEFAULT_BIG_GAME_SETTINGS
    cache := none
    watchParty := some { bigGames := some [("nba", ["rob-lowe"])] }
    saves := 0 }

/-- C6 counterexample: with a watch-party overlay active,
`saveBigGameSettings` still overwrites the persisted local settings
document — the claimed no-op behaviour is false at this input. -/
theorem save_during_watch_party_writes_store :
    (saveBigGameSettings wpActiveState (watchPartyDoc [])).stored
      ≠ wpActiveState.stored := by
  decide

/-- C6 as amended: `saveBigGameSettings` has no watch-party guard — even
while an overlay is active it writes its argument to the persisted local
document (and the read cache, counting one store write); watch-party
toggles stay inert instead because the settings page renders the
overlay's inputs disabled, and a read while an overlay with a `bigGames`
map is active returns the overlay's map, ignoring the local store. -/
theorem saveBigGameSettings_always_writes (st : SettingsState) (s : SettingsDoc)
    (bg : PerComp) :
    (saveBigGameSettings st s).stored = .doc s ∧
    (saveBigGameSettings st s).cache = some s ∧
    (saveBigGameSettings st s).saves = st.saves + 1 ∧
    (getBigGameSettings { st with watchParty := some { bigGames := some bg } }).1
      = watchPartyDoc bg := by
  exact ⟨rfl, rfl, rfl, rfl⟩

/-- When `migrateVersioned` saves, the saved document carries the current
schema version, the parsed document's other root fields, and a map
holding every known competition. -/
theorem migrateVersioned_save_shape (parsed : SettingsDoc) (pc : PerComp)
    (h : (migrateVersioned parsed pc).2 = true) :
    ∃ pc3, (migrateVersioned parsed pc).1
        = ⟨some SETTINGS_SCHEMA_VERSION, parsed.enabledCategories, some pc3⟩ ∧
      ∀ k ∈ COMPETITIONS_KEYS, (alookup pc3 k).isSome := by
  have h1 : ∀ k ∈ COMPETITIONS_KEYS,
      (alookup (ensureCompetitions COMPETITIONS_KEYS pc false).1 k).isSome :=
    fun k hk => ensureCompetitions_isSome _ _ _ _ (Or.inl hk)
  by_cases h3 : savedVersionOf parsed < 3
  · by_cases h2' : savedVersionOf parsed < 2
    · refine ⟨aset (addPlayoffPreview COMPETITIONS_KEYS
          (ensureCompetitions COMPETITIONS_KEYS pc false).1) "champions-league" CL_CATEGORIES,
        ?_, fun k hk =>
          isSome_alookup_aset _ _ _ _ (isSome_addPlayoffPreview _ _ _ (h1 k hk))⟩
      simp [migrateVersioned, h3, h2', SETTINGS_SCHEMA_VERSION]
    · refine ⟨aset (ensureCompetitions COMPETITIONS_KEYS pc false).1
          "champions-league" CL_CATEGORIES,
        ?_, fun k hk => isSome_alookup_aset _ _ _ _ (h1 k hk)⟩
      simp [migrateVersioned, h3, h2', SETTINGS_SCHEMA_VERSION]
  · by_cases h2' : savedVersionOf parsed < 2
    · exact absurd (lt_trans h2' (by norm_num)) h3
    · cases hE : (ensureCompetitions COMPETITIONS_KEYS pc false).2 with
      | true =>
        refine ⟨(ensureCompetitions COMPETITIONS_KEYS pc false).1,
          ?_, fun k hk => h1 k hk⟩
        simp [migrateVersioned, h3, h2', hE, SETTINGS_SCHEMA_VERSION]
      | false =>
        exfalso
        simp [migrateVersioned, h3, h2', hE, SETTINGS_SCHEMA_VERSION] at h

/-- C4: for every initially stored settings value (legacy flat format,
any versioned format, absent or malformed), loading once — which may
migrate and persist — and then loading again with the in-process read
cache invalidated and no watch-party overlay active returns the same
document, leaves the stored document untouched, and performs no further
store write on the second call. -/
theorem settings_loader_idempotent (sv : StoredSettings) :
    (getBigGameSettings (reloadState (getBigGameSettings (freshState sv)).2)).1
        = (getBigGameSettings (freshState sv)).1 ∧
    (getBigGameSettings (reloadState (getBigGameSettings (freshState sv)).2)).2.stored
        = (getBigGameSettings (freshState sv)).2.stored ∧
    (getBigGameSettings (reloadState (getBigGameSettings (freshState sv)).2)).2.saves
        = (getBigGameSettings (freshState sv)).2.saves := by
  cases sv with
  | absent => exact ⟨rfl, rfl, rfl⟩
  | malformed => exact ⟨rfl, rfl, rfl⟩
  | doc d =>
    obtain ⟨ver, ec, pco⟩ := d
    cases pco with
    | none =>
      cases ec with
      | none => exact ⟨rfl, rfl, rfl⟩
      | some ecs =>
        have hall : ∀ k ∈ COMPETITIONS_KEYS,
            (alookup (legacyPerCompetition COMPETITIONS_KEYS ecs []) k).isSome :=
          fun k hk => isSome_legacyPerCompetition COMPETITIONS_KEYS ecs [] k (Or.inl hk)
        have hm := migrateVersioned_stable
          ⟨some SETTINGS_SCHEMA_VERSION, none,
            some (legacyPerCompetition COMPETITIONS_KEYS ecs [])⟩
          (legacyPerCompetition COMPETITIONS_KEYS ecs []) rfl hall
        simp [getBigGameSettings, getBigGameSettingsLocal, freshState, reloadState,
          saveBigGameSettings, hm]
    | some pc =>
      cases hS : (migrateVersioned ⟨ver, ec, some pc⟩ pc).2 with
      | false =>
        simp [getBigGameSettings, getBigGameSettingsLocal, freshState, reloadState,
          saveBigGameSettings, hS]
      | true =>
        obtain ⟨pc3, hshape, hall3⟩ := migrateVersioned_save_shape ⟨ver, ec, some pc⟩ pc hS
        have hstab := migrateVersioned_stable ⟨some SETTINGS_SCHEMA_VERSION, ec, some pc3⟩
          pc3 rfl hall3
        simp [getBigGameSettings, getBigGameSettingsLocal, freshState, reloadState,
          saveBigGameSettings, hS, hshape, hstab]

/-! ## API response cache (`shared.js` lines 1093-1127)

`getCached`/`setCache` wrap `localStorage` entries of shape
`{ timestamp, data, ttl }` under keys prefixed with
`sports-tracker-cache-`. The wall clock `Date.now()` is an explicit
`now : Int` argument; the backing store is an association list from key
to stored value. A stored value may be a well-formed entry, a string
`JSON.parse` rejects, or a value whose very read throws — both failure
kinds land in the `catch` and yield `null`. -/

/-- `CACHE_KEY_PREFIX` from `shared.js` (the trailing word is spelled out
because the Lean name mirrors the constant's role). -/
def cacheKeyPrefixStr : String := "sports-tracker-cache-"

/-- `DEFAULT_TTL` from `shared.js`: 24 hours in milliseconds. -/
def DEFAULT_TTL : Int := 24 * 60 * 60 * 1000

/-- A cache entry `{ timestamp, data, ttl }` as stored by `setCache`.
`ttl = 0` models a falsy stored `ttl` (the code's `entry.ttl ||
DEFAULT_TTL` falls back exactly when `ttl` is falsy). -/
structure CacheEntry (α : Type) where
  timestamp : Int
  data : α
  ttl : Int
deriving DecidableEq

/-- What a read of one backing-store key can find: a parsed entry, a
string `JSON.parse` throws on, or a read that itself throws. -/
inductive CacheVal (α : Type) where
  | entry (e : CacheEntry α)
  | malformed
  | readThrows
deriving DecidableEq

/-- The backing store visible to the cache: `localStorage` as an
association list; a key not in the list models `getItem` returning
`null`. -/
abbrev CacheStore (α : Type) := List (String × CacheVal α)

/-- `localStorage.getItem`. -/
def storeGet {α : Type} (st : CacheStore α) (k : String) : Option (CacheVal α) :=
  match st with
  | [] => none
  | (k', v) :: rest => if k' == k then some v else storeGet rest k

/-- `localStorage.setItem`. -/
def storeSet {α : Type} (st : CacheStore α) (k : String) (v : CacheVal α) : CacheStore α :=
  match st with
  | [] => [(k, v)]
  | (k', v') :: rest => if k' == k then (k, v) :: rest else (k', v') :: storeSet rest k v

/-- `localStorage.removeItem`. -/
def storeRemove {α : Type} (st : CacheStore α) (k : String) : CacheStore α :=
  match st with
  | [] => []
  | (k', v') :: rest => if k' == k then rest else (k', v') :: storeRemove rest k

/-- `getCached(key)` from `shared.js`: returns the entry's data while
`now - timestamp < (entry.ttl || DEFAULT_TTL)`; on expiry removes the
entry and returns `null`; on a missing, malformed or throwing read
returns `null` (the `try/catch` swallows everything). Returns the value
and the possibly updated backing store. -/
def getCached {α : Type} (now : Int) (st : CacheStore α) (key : String) :
    Option α × CacheStore α :=
  match storeGet st (cacheKeyPrefixStr ++ key) with
  | none => (none, st)
  | some .malformed => (none, st)
  | some .readThrows => (none, st)
  | some (.entry e) =>
    let age := now - e.timestamp
    if age < (if e.ttl == 0 then DEFAULT_TTL else e.ttl) then
      (some e.data, st)
    else
      (none, storeRemove st (cacheKeyPrefixStr ++ key))

/-- `setCache(key, data, ttl)` from `shared.js`: writes
`{ timestamp: Date.now(), data, ttl }` under the prefixed key. -/
def setCache {α : Type} (now : Int) (st : CacheStore α) (key : String) (data : α)
    (ttl : Int) : CacheStore α :=
  storeSet st (cacheKeyPrefixStr ++ key) (.entry ⟨now, data, ttl⟩)

theorem storeGet_storeSet {α : Type} (st : CacheStore α) (k : String) (v : CacheVal α) :
    storeGet (storeSet st k v) k = some v := by
  induction st with
  | nil => simp [storeGet, storeSet]
  | cons hd tl ih =>
    obtain ⟨k₀, v₀⟩ := hd
    by_cases h : k₀ = k <;> simp [storeGet, storeSet, h, ih]

/-- C7: after `setCache(key, value, ttl)` with a positive `ttl`, a read
while `now - timestamp < ttl` returns the value unchanged and leaves the
store as written; a read once `now - timestamp ≥ ttl` deletes the entry
and returns null; and a read of a malformed entry or a throwing
backing-store read returns null without touching the store — `getCached`
is total and never throws. -/
theorem cache_set_get_ttl {α : Type} (key : String) (value : α) (ttl now₀ now₁ : Int)
    (st : CacheStore α) (hpos : 0 < ttl) :
    (now₁ - now₀ < ttl →
      getCached now₁ (setCache now₀ st key value ttl) key
        = (some value, setCache now₀ st key value ttl)) ∧
    (ttl ≤ now₁ - now₀ →
      getCached now₁ (setCache now₀ st key value ttl) key
        = (none, storeRemove (setCache now₀ st key value ttl)
            (cacheKeyPrefixStr ++ key))) ∧
    (∀ st' : CacheStore α, ∀ k' : String,
      storeGet st' (cacheKeyPrefixStr ++ k') = some .malformed →
        getCached now₁ st' k' = (none, st')) ∧
    (∀ st' : CacheStore α, ∀ k' : String,
      storeGet st' (cacheKeyPrefixStr ++ k') = some .readThrows →
        getCached now₁ st' k' = (none, st')) := by
  have httl : (ttl == 0) = false := by
    simp only [beq_eq_false_iff_ne]
    omega
  refine ⟨fun hlt => ?_, fun hge => ?_, fun st' k' hm => ?_, fun st' k' hm => ?_⟩
  · simp [getCached, setCache, storeGet_storeSet, httl, hlt]
  · simp [getCached, setCache, storeGet_storeSet, httl]
    omega
  · simp [getCached, hm]
  · simp [getCached, hm]

/-- Witness for C7: key `"standings-nba"`, value `7`, ttl `10`, written at
time `100`; read at `105` (fresh) and at `110` (expired), plus a
malformed and a throwing entry. -/
theorem cache_set_get_ttl_witness :
    ((105 : Int) - 100 < 10 →
      getCached 105 (setCache 100 ([] : CacheStore Nat) "standings-nba" 7 10) "standings-nba"
        = (some 7, setCache 100 ([] : CacheStore Nat) "standings-nba" 7 10)) ∧
    ((10 : Int) ≤ 110 - 100 →
      getCached 110 (setCache 100 ([] : CacheStore Nat) "standings-nba" 7 10) "standings-nba"
        = (none, storeRemove (setCache 100 ([] : CacheStore Nat) "standings-nba" 7 10)
            (cacheKeyPrefixStr ++ "standings-nba"))) ∧
    (∀ st' : CacheStore Nat, ∀ k' : String,
      storeGet st' (cacheKeyPrefixStr ++ k') = some .malformed →
        getCached 105 st' k' = (none, st')) ∧
    (∀ st' : CacheStore Nat, ∀ k' : String,
      storeGet st' (cacheKeyPrefixStr ++ k') = some .readThrows →
        getCached 105 st' k' = (none, st')) := by
  have h := cache_set_get_ttl (α := Nat) "standings-nba" 7 10 100 105 [] (by norm_num)
  have h' := cache_set_get_ttl (α := Nat) "standings-nba" 7 10 100 110 [] (by norm_num)
  exact ⟨h.1, h'.2.1, h.2.2.1, h.2.2.2⟩

/-- C10: an entry stored with a falsy ttl (here `setCache(key, data, 0)`)
is validated against the 24-hour `DEFAULT_TTL` instead of its stored ttl:
a read strictly less than 24 hours after the write — in particular a read
at the very write instant, which the plain `now - timestamp >= ttl` rule
would already expire — returns the data as fresh, and only a read at or
past 24 hours expires and deletes it. -/
theorem cache_falsy_ttl_uses_default {α : Type} (key : String) (data : α)
    (now₀ now₁ : Int) (st : CacheStore α) :
    (now₁ - now₀ < DEFAULT_TTL →
      getCached now₁ (setCache now₀ st key data 0) key
        = (some data, setCache now₀ st key data 0)) ∧
    (DEFAULT_TTL ≤ now₁ - now₀ →
      getCached now₁ (setCache now₀ st key data 0) key
        = (none, storeRemove (setCache now₀ st key data 0)
            (cacheKeyPrefixStr ++ key))) ∧
    getCached now₀ (setCache now₀ st key data 0) key
      = (some data, setCache now₀ st key data 0) ∧
    ¬ (now₀ - now₀ < (0 : Int)) := by
  refine ⟨fun hlt => ?_, fun hge => ?_, ?_, by omega⟩
  · simp [getCached, setCache, storeGet_storeSet, hlt]
  · simp [getCached, setCache, storeGet_storeSet]
    omega
  · simp [getCached, setCache, storeGet_storeSet, DEFAULT_TTL]

/-- Witness for C10 at time 0 write, reads at 1 hour and at 25 hours. -/
theorem cache_falsy_ttl_uses_default_witness :
    ((3600000 : Int) - 0 < DEFAULT_TTL →
      getCached 3600000 (setCache 0 ([] : CacheStore Nat) "scoreboard" 9 0) "scoreboard"
        = (some 9, setCache 0 ([] : CacheStore Nat) "scoreboard" 9 0)) ∧
    (DEFAULT_TTL ≤ (90000000 : Int) - 0 →
      getCached 90000000 (setCache 0 ([] : CacheStore Nat) "scoreboard" 9 0) "scoreboard"
        = (none, storeRemove (setCache 0 ([] : CacheStore Nat) "scoreboard" 9 0)
            (cacheKeyPrefixStr ++ "scoreboard"))) ∧
    getCached 0 (setCache 0 ([] : CacheStore Nat) "scoreboard" 9 0) "scoreboard"
      = (some 9, setCache 0 ([] : CacheStore Nat) "scoreboard" 9 0) ∧
    ¬ ((0 : Int) - 0 < (0 : Int)) := by
  have h := cache_falsy_ttl_uses_default (α := Nat) "scoreboard" 9 0 3600000 []
  have h' := cache_falsy_ttl_uses_default (α := Nat) "scoreboard" 9 0 90000000 []
  have h0 := cache_falsy_ttl_uses_default (α := Nat) "scoreboard" 9 0 0 []
  exact ⟨h.1, h'.2.1, h0.2.2.1, h0.2.2.2⟩

/-! ## Favorite teams (settings page, `MAX_TEAMS` / `getFavoriteTeams` /
`addFavoriteTeam`)

The favorites list lives in `localStorage` under
`sports-tracker-favorite-teams`; `getFavoriteTeams` falls back to
`DEFAULT_TEAMS` when the stored value is absent, malformed or an empty
array, and `addFavoriteTeam` enforces the 10-team cap and the
`(id, league)` uniqueness key. -/

/-- A favorite team record `{name, id, league, sport, espnPath, logo}`. -/
structure Team where
  name : String
  id : String
  league : String
  sport : String
  espnPath : String
  logo : String
deriving DecidableEq

/-- `MAX_TEAMS` from the settings page. -/
def MAX_TEAMS : Nat := 10

/-- `DEFAULT_TEAMS` from the settings page (used if no teams saved). -/
def DEFAULT_TEAMS : List Team :=
  [{ name := "Everton", id := "368", league := "premier-league", sport := "soccer",
     espnPath := "soccer/eng.1",
     logo := "https://a.espncdn.com/i/teamlogos/soccer/500/368.png" },
   { name := "Tampa Bay Buccaneers", id := "27", league := "nfl", sport := "football",
     espnPath := "football/nfl",
     logo := "https://a.espncdn.com/i/teamlogos/nfl/500/tb.png" },
   { name := "Tampa Bay Lightning", id := "20", league := "nhl", sport := "hockey",
     espnPath := "hockey/nhl",
     logo := "https://a.espncdn.com/i/teamlogos/nhl/500/tb.png" },
   { name := "Tampa Bay Rays", id := "30", league := "mlb", sport := "baseball",
     espnPath := "baseball/mlb",
     logo := "https://a.espncdn.com/i/teamlogos/mlb/500/tb.png" }]

/-- The stored favorites value: absent, a string `JSON.parse` rejects (or
a non-array), or a parsed array of team records. -/
inductive FavStore where
  | absent
  | malformed
  | list (teams : List Team)
deriving DecidableEq

/-- `getFavoriteTeams()` from the settings page: the parsed stored array
when it is a non-empty array, else `DEFAULT_TEAMS` (absent, malformed and
empty-array reads all fall back). -/
def getFavoriteTeams : FavStore → List Team
  | .absent => DEFAULT_TEAMS
  | .malformed => DEFAULT_TEAMS
  | .list ts => if ts.isEmpty then DEFAULT_TEAMS else ts

/-- `addFavoriteTeam(team)` from the settings page: rejects (returns
false, store untouched) at or above `MAX_TEAMS` and on a duplicate
`(id, league)` pair; otherwise appends at the end, persists via
`saveFavoriteTeams`, and returns true. Returns the reported Bool and the
resulting store. -/
def addFavoriteTeam (st : FavStore) (team : Team) : Bool × FavStore :=
  let teams := getFavoriteTeams st
  if MAX_TEAMS ≤ teams.length then
    (false, st)
  else if teams.any fun t => t.id == team.id && t.league == team.league then
    (false, st)
  else
    (true, .list (teams ++ [team]))

/-- C9: `addFavoriteTeam` returns false and leaves the persisted
favorites unchanged when the effective list already holds `MAX_TEAMS`
(10) or more teams, and when a team with the same `(id, league)` pair is
present; in every other case it appends the team at the end of the list
and returns true — it is total (never throws) and never truncates the
list. -/
theorem addFavoriteTeam_cases (st : FavStore) (team : Team) :
    (MAX_TEAMS ≤ (getFavoriteTeams st).length →
      addFavoriteTeam st team = (false, st)) ∧
    ((getFavoriteTeams st).length < MAX_TEAMS →
      (∃ t ∈ getFavoriteTeams st, t.id = team.id ∧ t.league = team.league) →
      addFavoriteTeam st team = (false, st)) ∧
    ((getFavoriteTeams st).length < MAX_TEAMS →
      (¬ ∃ t ∈ getFavoriteTeams st, t.id = team.id ∧ t.league = team.league) →
      addFavoriteTeam st team = (true, .list (getFavoriteTeams st ++ [team]))) := by
  refine ⟨fun hfull => ?_, fun hroom hdup => ?_, fun hroom hnew => ?_⟩
  · simp [addFavoriteTeam, hfull]
  · have hany : (getFavoriteTeams st).any
        (fun t => t.id == team.id && t.league == team.league) = true := by
      obtain ⟨t, ht, hid, hlg⟩ := hdup
      exact List.any_eq_true.mpr ⟨t, ht, by simp [hid, hlg]⟩
    simp [addFavoriteTeam, hany, Nat.not_le.mpr hroom]
  · have hany : (getFavoriteTeams st).any
        (fun t => t.id == team.id && t.league == team.league) = false := by
      rw [List.any_eq_false]
      intro t ht
      simp only [Bool.and_eq_true, beq_iff_eq, not_and]
      intro hid hlg
      exact hnew ⟨t, ht, hid, hlg⟩
    simp [addFavoriteTeam, hany, Nat.not_le.mpr hroom]

/-- A full 10-team stored favorites list, for C9's witness. -/
def fullFavStore : FavStore :=
  .list (List.replicate 10
    { name := "X", id := "1", league := "nhl", sport := "hockey",
      espnPath := "hockey/nhl", logo := "" })

/-- A team duplicating Everton's `(id, league)` pair, for C9's witness. -/
def dupEverton : Team :=
  { name := "Everton Again", id := "368", league := "premier-league",
    sport := "soccer", espnPath := "soccer/eng.1", logo := "" }

/-- A team new to the default list, for C9's witness. -/
def newNbaTeam : Team :=
  { name := "New Team", id := "99", league := "nba", sport := "basketball",
    espnPath := "basketball/nba", logo := "" }

/-- Witness for C9: a full store rejects, a duplicate `(id, league)`
rejects, and a new team appends at the end, at concrete inputs. -/
theorem addFavoriteTeam_cases_witness :
    addFavoriteTeam fullFavStore dupEverton = (false, fullFavStore) ∧
    addFavoriteTeam .absent dupEverton = (false, .absent) ∧
    addFavoriteTeam .absent newNbaTeam
      = (true, .list (getFavoriteTeams .absent ++ [newNbaTeam])) :=
  ⟨(addFavoriteTeam_cases fullFavStore dupEverton).1 (by decide),
   (addFavoriteTeam_cases .absent dupEverton).2.1 (by decide)
     ⟨DEFAULT_TEAMS.head (by decide), by decide, by decide, by decide⟩,
   (addFavoriteTeam_cases .absent newNbaTeam).2.2 (by decide) (by decide)⟩

/-! ## Watch-party encoding (`shared.js` lines 1252-1269)

`encodeWatchParty(settings)` is `btoa(JSON.stringify(settings))` and
`decodeWatchParty(encoded)` is `JSON.parse(atob(encoded))`, each wrapped
in a `try/catch` that turns any throw into `null`. The browser built-ins
are embedded concretely: `btoa`/`atob` as standard base64 over the
string's char codes (`btoa` throws — here `none` — on a code point above
255), and `JSON.stringify`/`JSON.parse` for the JSON value grammar the
program serializes (objects, arrays, strings, integer numbers, booleans,
null, compact output). -/

/-- The base64 alphabet. -/
def B64_CHARS : List Char :=
  ['A','B','C','D','E','F','G','H','I','J','K','L','M','N','O','P','Q','R','S','T',
   'U','V','W','X','Y','Z','a','b','c','d','e','f','g','h','i','j','k','l','m','n',
   'o','p','q','r','s','t','u','v','w','x','y','z','0','1','2','3','4','5','6','7',
   '8','9','+','/']

/-- The base64 character of a sextet. -/
def b64Char (n : Nat) : Char := B64_CHARS.getD n '?'

/-- Index scan for `b64Index`. -/
def b64IndexAux (cs : List Char) (c : Char) (i : Nat) : Option Nat :=
  match cs with
  | [] => none
  | c' :: rest => if c' == c then some i else b64IndexAux rest c (i + 1)

/-- The sextet of a base64 character, `none` for a character outside the
alphabet (including `'='`). -/
def b64Index (c : Char) : Option Nat := b64IndexAux B64_CHARS c 0

/-- `btoa` on a byte list: three bytes to four sextet characters, with
`'='` padding for a trailing group of one or two bytes. -/
def btoaBytes : List Nat → List Char
  | [] => []
  | [b1] => [b64Char (b1 / 4), b64Char (b1 % 4 * 16), '=', '=']
  | [b1, b2] => [b64Char (b1 / 4), b64Char (b1 % 4 * 16 + b2 / 16), b64Char (b2 % 16 * 4), '=']
  | b1 :: b2 :: b3 :: rest =>
    b64Char (b1 / 4) :: b64Char (b1 % 4 * 16 + b2 / 16) ::
      b64Char (b2 % 16 * 4 + b3 / 64) :: b64Char (b3 % 64) :: btoaBytes rest

/-- `atob` on a character list: four characters to three bytes, padding
allowed only in the final group; `none` (a throw) for a length not a
multiple of four or a character outside the alphabet. -/
def atobChars : List Char → Option (List Nat)
  | [] => some []
  | c1 :: c2 :: c3 :: c4 :: rest =>
    match b64Index c1, b64Index c2 with
    | some s1, some s2 =>
      if c3 = '=' then
        if c4 = '=' ∧ rest = [] then some [s1 * 4 + s2 / 16] else none
      else
        match b64Index c3 with
        | some s3 =>
          if c4 = '=' then
            if rest = [] then some [s1 * 4 + s2 / 16, s2 % 16 * 16 + s3 / 4] else none
          else
            match b64Index c4 with
            | some s4 =>
              match atobChars rest with
              | some bs => some ((s1 * 4 + s2 / 16) :: (s2 % 16 * 16 + s3 / 4) ::
                  (s3 % 4 * 64 + s4) :: bs)
              | none => none
            | none => none
        | none => none
    | _, _ => none
  | _ => none

theorem b64Index_b64Char : ∀ n : Nat, n < 64 → b64Index (b64Char n) = some n := by
  decide

theorem b64Char_ne_eq : ∀ n : Nat, n < 64 → b64Char n ≠ '=' := by
  decide

/-- Decoding inverts encoding on byte lists (every byte below 256). -/
theorem atobChars_btoaBytes : ∀ bs : List Nat, (∀ b ∈ bs, b < 256) →
    atobChars (btoaBytes bs) = some bs
  | [], _ => rfl
  | [b1], h => by
    have hb1 : b1 < 256 := h b1 (by simp)
    have hs1 : b1 / 4 < 64 := by omega
    have hs2 : b1 % 4 * 16 < 64 := by omega
    simp only [btoaBytes, atobChars, b64Index_b64Char _ hs1, b64Index_b64Char _ hs2]
    norm_num
    omega
  | [b1, b2], h => by
    have hb1 : b1 < 256 := h b1 (by simp)
    have hb2 : b2 < 256 := h b2 (by simp)
    have hs1 : b1 / 4 < 64 := by omega
    have hs2 : b1 % 4 * 16 + b2 / 16 < 64 := by omega
    have hs3 : b2 % 16 * 4 < 64 := by omega
    simp only [btoaBytes, atobChars, b64Index_b64Char _ hs1, b64Index_b64Char _ hs2,
      b64Index_b64Char _ hs3]
    rw [if_neg (b64Char_ne_eq _ hs3)]
    norm_num
    constructor <;> omega
  | b1 :: b2 :: b3 :: rest, h => by
    have hb1 : b1 < 256 := h b1 (by simp)
    have hb2 : b2 < 256 := h b2 (by simp)
    have hb3 : b3 < 256 := h b3 (by simp)
    have hs1 : b1 / 4 < 64 := by omega
    have hs2 : b1 % 4 * 16 + b2 / 16 < 64 := by omega
    have hs3 : b2 % 16 * 4 + b3 / 64 < 64 := by omega
    have hs4 : b3 % 64 < 64 := by omega
    have ih := atobChars_btoaBytes rest (fun b hb => h b (by simp [hb]))
    simp only [btoaBytes, atobChars, b64Index_b64Char _ hs1, b64Index_b64Char _ hs2,
      b64Index_b64Char _ hs3, b64Index_b64Char _ hs4]
    rw [if_neg (b64Char_ne_eq _ hs3), if_neg (b64Char_ne_eq _ hs4)]
    rw [ih]
    have e1 : b1 / 4 * 4 + (b1 % 4 * 16 + b2 / 16) / 16 = b1 := by omega
    have e2 : (b1 % 4 * 16 + b2 / 16) % 16 * 16 + (b2 % 16 * 4 + b3 / 64) / 4 = b2 := by omega
    have e3 : (b2 % 16 * 4 + b3 / 64) % 4 * 64 + b3 % 64 = b3 := by omega
    rw [e1, e2, e3]

/-- `btoa(s)`: `none` models the `InvalidCharacterError` thrown when a
char code exceeds 255. -/
def btoaJS (s : String) : Option String :=
  if s.data.all fun c => decide (c.toNat < 256) then
    some (String.mk (btoaBytes (s.data.map Char.toNat)))
  else none

/-- `atob(s)`: `none` models the throw on a malformed base64 string. -/
def atobJS (s : String) : Option String :=
  match atobChars s.data with
  | some bs => some (String.mk (bs.map Char.ofNat))
  | none => none

/-- `atob` inverts `btoa` on strings of char codes below 256. -/
theorem atobJS_btoaJS (s : String) (h : ∀ c ∈ s.data, c.toNat < 256) :
    btoaJS s = some (String.mk (btoaBytes (s.data.map Char.toNat))) ∧
    atobJS (String.mk (btoaBytes (s.data.map Char.toNat))) = some s := by
  constructor
  · rw [btoaJS, if_pos]
    rw [List.all_eq_true]
    intro c hc
    simpa using h c hc
  · have hb : ∀ b ∈ s.data.map Char.toNat, b < 256 := by
      intro b hb
      obtain ⟨c, hc, rfl⟩ := List.mem_map.mp hb
      exact h c hc
    rw [atobJS]
    simp only [atobChars_btoaBytes _ hb]
    rw [List.map_map]
    have : (Char.ofNat ∘ Char.toNat) = fun c : Char => c := by
      funext c
      exact Char.ofNat_toNat c
    rw [this, List.map_id']

/-- A JSON value of the grammar the watch-party payload uses: `null`,
booleans, integer numbers, strings, arrays, and insertion-ordered
objects. -/
inductive Json where
  | jnull
  | jbool (b : Bool)
  | jnum (n : Int)
  | jstr (s : String)
  | jarr (elems : List Json)
  | jobj (fields : List (String × Json))

/-- The decimal digit character of `n < 10`. -/
def digitChar (n : Nat) : Char := Char.ofNat (48 + n)

/-- Decimal digits of a natural number, most significant first;
fuel-structured (any `fuel > n` is enough). -/
def natDigits (fuel n : Nat) : List Char :=
  match fuel with
  | 0 => []
  | fuel' + 1 =>
    if n < 10 then [digitChar n]
    else natDigits fuel' (n / 10) ++ [digitChar (n % 10)]

/-- JavaScript `String(n)` for an integer: decimal digits with a leading
minus for negatives. -/
def intToChars (n : Int) : List Char :=
  if n < 0 then '-' :: natDigits (n.natAbs + 1) n.natAbs
  else natDigits (n.natAbs + 1) n.natAbs

/-- `JSON.stringify`'s escaping of one string character. On the
well-formed domain (no control characters) only `'"'` and `'\'` need
escapes. -/
def escapeChar (c : Char) : List Char :=
  if c = '"' then ['\\', '"']
  else if c = '\\' then ['\\', '\\']
  else [c]

/-- `JSON.stringify` of a string: quoted, characters escaped. -/
def stringifyStr (s : String) : List Char :=
  '"' :: (s.data.map escapeChar).flatten ++ ['"']

mutual

/-- `JSON.stringify` (compact — no spacing argument) of a value. -/
def stringifyVal : Json → List Char
  | .jnull => ['n', 'u', 'l', 'l']
  | .jbool true => ['t', 'r', 'u', 'e']
  | .jbool false => ['f', 'a', 'l', 's', 'e']
  | .jnum n => intToChars n
  | .jstr s => stringifyStr s
  | .jarr xs => '[' :: stringifyArr xs ++ [']']
  | .jobj fs => '{' :: stringifyObj fs ++ ['}']

/-- Comma-separated stringified array elements. -/
def stringifyArr : List Json → List Char
  | [] => []
  | [x] => stringifyVal x
  | x :: y :: rest => stringifyVal x ++ ',' :: stringifyArr (y :: rest)

/-- Comma-separated stringified object fields (`"key":value`). -/
def stringifyObj : List (String × Json) → List Char
  | [] => []
  | [(k, v)] => stringifyStr k ++ ':' :: stringifyVal v
  | (k, v) :: f :: rest => stringifyStr k ++ ':' :: stringifyVal v ++ ',' :: stringifyObj (f :: rest)

end

/-- A string character this embedding of `JSON.stringify` renders exactly
as the browser does: printable (no control escapes needed) and Latin-1
(so `btoa` accepts it). -/
def wfChar (c : Char) : Bool := decide (32 ≤ c.toNat) && decide (c.toNat < 256)

/-- All characters of the string are well formed. -/
def wfString (s : String) : Bool := s.data.all wfChar

mutual

/-- A JSON value the embedding is faithful for: strings well formed,
numbers in the double-exact (safe integer) range. -/
def wfJson : Json → Bool
  | .jnull => true
  | .jbool _ => true
  | .jnum n => decide (n.natAbs ≤ 9007199254740991)
  | .jstr s => wfString s
  | .jarr xs => wfArr xs
  | .jobj fs => wfObj fs

/-- All array elements well formed. -/
def wfArr : List Json → Bool
  | [] => true
  | x :: rest => wfJson x && wfArr rest

/-- All object keys and values well formed. -/
def wfObj : List (String × Json) → Bool
  | [] => true
  | (k, v) :: rest => wfString k && wfJson v && wfObj rest

end

/-- `JSON.parse`'s unescaping of a backslash escape (without `\uXXXX`,
which the stringifier never emits on the well-formed domain). -/
def unescapeChar (c : Char) : Option Char :=
  if c = '"' then some '"'
  else if c = '\\' then some '\\'
  else if c = '/' then some '/'
  else if c = 'n' then some (Char.ofNat 10)
  else if c = 't' then some (Char.ofNat 9)
  else if c = 'r' then some (Char.ofNat 13)
  else if c = 'b' then some (Char.ofNat 8)
  else if c = 'f' then some (Char.ofNat 12)
  else none

/-- Parse a string body up to its closing quote, handling escapes;
returns the unescaped characters and the remaining input. -/
def parseStringBody : List Char → Option (List Char × List Char)
  | [] => none
  | c :: cs =>
    if c = '"' then some ([], cs)
    else if c = '\\' then
      match cs with
      | [] => none
      | e :: cs' =>
        match unescapeChar e with
        | some c' =>
          match parseStringBody cs' with
          | some (s, r) => some (c' :: s, r)
          | none => none
        | none => none
    else
      match parseStringBody cs with
      | some (s, r) => some (c :: s, r)
      | none => none

/-- Take the longest digit run off the front of the input. -/
def takeDigits : List Char → List Char × List Char
  | [] => ([], [])
  | c :: cs =>
    if c.isDigit then
      match takeDigits cs with
      | (ds, rest) => (c :: ds, rest)
    else ([], c :: cs)

/-- The value of a most-significant-first decimal digit run. -/
def digitsVal (ds : List Char) : Nat :=
  ds.foldl (fun a c => a * 10 + (c.toNat - 48)) 0

/-- The input continuations a serialized value is followed by: the end of
input or a closing/separating delimiter. -/
def isDelim (cs : List Char) : Bool :=
  match cs with
  | [] => true
  | c :: _ => c == ',' || c == ']' || c == '}'

mutual

/-- `JSON.parse` of one value, fuel-structured: keywords, strings,
numbers, arrays, objects. -/
def parseVal : Nat → List Char → Option (Json × List Char)
  | 0, _ => none
  | _ + 1, [] => none
  | fuel + 1, c :: cs =>
    if c.isDigit then
      match takeDigits (c :: cs) with
      | (ds, rest) => some (.jnum (digitsVal ds), rest)
    else if c = '-' then
      match takeDigits cs with
      | ([], _) => none
      | (d :: ds, rest) => some (.jnum (-(digitsVal (d :: ds) : Int)), rest)
    else if c = '"' then
      match parseStringBody cs with
      | some (s, rest) => some (.jstr (String.mk s), rest)
      | none => none
    else if c = '[' then
      match parseElems fuel cs with
      | some (xs, rest) => some (.jarr xs, rest)
      | none => none
    else if c = '{' then
      match parseFields fuel cs with
      | some (fs, rest) => some (.jobj fs, rest)
      | none => none
    else
      match c :: cs with
      | 'n' :: 'u' :: 'l' :: 'l' :: rest => some (.jnull, rest)
      | 't' :: 'r' :: 'u' :: 'e' :: rest => some (.jbool true, rest)
      | 'f' :: 'a' :: 'l' :: 's' :: 'e' :: rest => some (.jbool false, rest)
      | _ => none

/-- Parse array elements after `'['` up to the closing `']'`. -/
def parseElems : Nat → List Char → Option (List Json × List Char)
  | 0, _ => none
  | _ + 1, [] => none
  | fuel + 1, c :: cs =>
    if c = ']' then some ([], cs)
    else
      match parseVal fuel (c :: cs) with
      | some (x, rest) =>
        match rest with
        | ',' :: rest2 =>
          match parseElems fuel rest2 with
          | some (xs, r) => some (x :: xs, r)
          | none => none
        | ']' :: rest2 => some ([x], rest2)
        | _ => none
      | none => none

/-- Parse object fields after `'{'` up to the closing `'}'`. -/
def parseFields : Nat → List Char → Option (List (String × Json) × List Char)
  | 0, _ => none
  | _ + 1, [] => none
  | fuel + 1, c :: cs =>
    if c = '}' then some ([], cs)
    else if c = '"' then
      match parseStringBody cs with
      | some (k, rest1) =>
        match rest1 with
        | ':' :: rest2 =>
          match parseVal fuel rest2 with
          | some (v, rest3) =>
            match rest3 with
            | ',' :: rest4 =>
              match parseFields fuel rest4 with
              | some (fs, r) => some ((String.mk k, v) :: fs, r)
              | none => none
            | '}' :: rest4 => some ([(String.mk k, v)], rest4)
            | _ => none
          | none => none
        | _ => none
      | none => none
    else none

end

/-- `JSON.parse` of a whole string: one value consuming the entire input
(fuel `2·length + 2` covers every parse, see `parse_stringifyVal`). -/
def parseJSON (s : String) : Option Json :=
  match parseVal (2 * s.data.length + 2) s.data with
  | some (j, []) => some j
  | _ => none

/-- `encodeWatchParty(settings)` from `shared.js`:
`btoa(JSON.stringify(settings))`, `null` (here `none`) when `btoa`
throws. -/
def encodeWatchParty (settings : Json) : Option String :=
  btoaJS (String.mk (stringifyVal settings))

/-- `decodeWatchParty(encoded)` from `shared.js`:
`JSON.parse(atob(encoded))`, `null` (here `none`) when either throws. -/
def decodeWatchParty (encoded : String) : Option Json :=
  match atobJS encoded with
  | some s => parseJSON s
  | none => none

theorem digitChar_isDigit (d : Nat) (h : d < 10) : (digitChar d).isDigit = true := by
  interval_cases d <;> decide

theorem digitChar_toNat (d : Nat) (h : d < 10) : (digitChar d).toNat = 48 + d := by
  interval_cases d <;> decide

theorem isDigit_ne (c : Char) (h : c.isDigit = true) :
    c ≠ ']' ∧ c ≠ '}' ∧ c ≠ ',' ∧ c ≠ '-' ∧ c ≠ '"' ∧ c ≠ '[' ∧ c ≠ '{' := by
  refine ⟨?_, ?_, ?_, ?_, ?_, ?_, ?_⟩ <;> rintro rfl <;> simp [Char.isDigit] at h

theorem digitsVal_append (l : List Char) (c : Char) :
    digitsVal (l ++ [c]) = digitsVal l * 10 + (c.toNat - 48) := by
  simp [digitsVal, List.foldl_append]

theorem natDigits_spec (fuel : Nat) : ∀ n : Nat, n < fuel →
    natDigits fuel n ≠ [] ∧ (∀ c ∈ natDigits fuel n, c.isDigit = true) ∧
      digitsVal (natDigits fuel n) = n := by
  induction fuel with
  | zero => intro n h; omega
  | succ fuel' ih =>
    intro n h
    by_cases h10 : n < 10
    · simp only [natDigits, h10, if_true]
      refine ⟨by simp, by simpa using digitChar_isDigit n h10, ?_⟩
      simp [digitsVal, digitChar_toNat n h10]
    · have hdiv : n / 10 < fuel' := by omega
      obtain ⟨hne, hdig, hval⟩ := ih (n / 10) hdiv
      simp only [natDigits, h10, if_false]
      refine ⟨by simp, ?_, ?_⟩
      · intro c hc
        rcases List.mem_append.mp hc with hc | hc
        · exact hdig c hc
        · simp only [List.mem_singleton] at hc
          subst hc
          exact digitChar_isDigit _ (by omega)
      · rw [digitsVal_append, hval, digitChar_toNat _ (by omega)]
        omega

theorem takeDigits_delim (rest : List Char) (h : isDelim rest = true) :
    takeDigits rest = ([], rest) := by
  cases rest with
  | nil => rfl
  | cons c r =>
    simp only [isDelim, Bool.or_eq_true, beq_iff_eq] at h
    rcases h with (rfl | rfl) | rfl <;> rfl

theorem takeDigits_cons_digit (c : Char) (cs : List Char) (h : c.isDigit = true) :
    takeDigits (c :: cs) = (c :: (takeDigits cs).1, (takeDigits cs).2) := by
  simp only [takeDigits, h, if_true]

theorem takeDigits_append (ds : List Char) (rest : List Char)
    (hds : ∀ c ∈ ds, c.isDigit = true) (hrest : takeDigits rest = ([], rest)) :
    takeDigits (ds ++ rest) = (ds, rest) := by
  induction ds with
  | nil => simpa using hrest
  | cons c cs ih =>
    rw [List.cons_append, takeDigits_cons_digit c _ (hds c (by simp)),
      ih fun c hc => hds c (by simp [hc])]

theorem parseStringBody_quote (cs : List Char) :
    parseStringBody ('"' :: cs) = some ([], cs) := by
  unfold parseStringBody
  simp

theorem parseStringBody_backslash (e : Char) (cs : List Char) :
    parseStringBody ('\\' :: e :: cs) =
      match unescapeChar e with
      | some c' =>
        match parseStringBody cs with
        | some (s, r) => some (c' :: s, r)
        | none => none
      | none => none := by
  conv_lhs => rw [parseStringBody.eq_def]
  simp

theorem parseStringBody_other (c : Char) (cs : List Char) (hq : c ≠ '"') (hb : c ≠ '\\') :
    parseStringBody (c :: cs) =
      match parseStringBody cs with
      | some (s, r) => some (c :: s, r)
      | none => none := by
  conv_lhs => rw [parseStringBody.eq_def]
  simp [hq, hb]

theorem parseStringBody_escape : ∀ (s : List Char) (rest : List Char),
    parseStringBody ((s.map escapeChar).flatten ++ '"' :: rest) = some (s, rest)
  | [], rest => by
    simp only [List.map_nil, List.flatten_nil, List.nil_append]
    exact parseStringBody_quote rest
  | c :: cs, rest => by
    have ih := parseStringBody_escape cs rest
    by_cases hq : c = '"'
    · subst hq
      have hsplit : ((('"' : Char) :: cs).map escapeChar).flatten ++ '"' :: rest
          = '\\' :: '"' :: ((cs.map escapeChar).flatten ++ '"' :: rest) := by
        simp [escapeChar]
      rw [hsplit, parseStringBody_backslash, ih]
      simp [unescapeChar]
    · by_cases hb : c = '\\'
      · subst hb
        have hsplit : ((('\\' : Char) :: cs).map escapeChar).flatten ++ '"' :: rest
            = '\\' :: '\\' :: ((cs.map escapeChar).flatten ++ '"' :: rest) := by
          simp [escapeChar]
        rw [hsplit, parseStringBody_backslash, ih]
        simp [unescapeChar]
      · have hsplit : ((c :: cs).map escapeChar).flatten ++ '"' :: rest
            = c :: ((cs.map escapeChar).flatten ++ '"' :: rest) := by
          simp [escapeChar, hq, hb]
        rw [hsplit, parseStringBody_other c _ hq hb, ih]
theorem parseVal_digit (fuel : Nat) (c : Char) (cs : List Char) (h : c.isDigit = true) :
    parseVal (fuel + 1) (c :: cs)
      = some (.jnum (digitsVal (takeDigits (c :: cs)).1), (takeDigits (c :: cs)).2) := by
  conv_lhs => rw [parseVal.eq_def]
  simp [h]

theorem parseVal_minus (fuel : Nat) (cs : List Char) :
    parseVal (fuel + 1) ('-' :: cs)
      = match takeDigits cs with
        | ([], _) => none
        | (d :: ds, rest) => some (.jnum (-(digitsVal (d :: ds) : Int)), rest) := by
  conv_lhs => rw [parseVal.eq_def]
  simp

theorem parseVal_quote (fuel : Nat) (cs : List Char) :
    parseVal (fuel + 1) ('"' :: cs)
      = match parseStringBody cs with
        | some (s, rest) => some (.jstr (String.mk s), rest)
        | none => none := by
  conv_lhs => rw [parseVal.eq_def]
  simp

theorem parseVal_lbracket (fuel : Nat) (cs : List Char) :
    parseVal (fuel + 1) ('[' :: cs)
      = match parseElems fuel cs with
        | some (xs, rest) => some (.jarr xs, rest)
        | none => none := by
  conv_lhs => rw [parseVal.eq_def]
  simp

theorem parseVal_lbrace (fuel : Nat) (cs : List Char) :
    parseVal (fuel + 1) ('{' :: cs)
      = match parseFields fuel cs with
        | some (fs, rest) => some (.jobj fs, rest)
        | none => none := by
  conv_lhs => rw [parseVal.eq_def]
  simp

theorem parseVal_null (fuel : Nat) (rest : List Char) :
    parseVal (fuel + 1) ('n' :: 'u' :: 'l' :: 'l' :: rest) = some (.jnull, rest) := by
  conv_lhs => rw [parseVal.eq_def]
  simp

theorem parseVal_true (fuel : Nat) (rest : List Char) :
    parseVal (fuel + 1) ('t' :: 'r' :: 'u' :: 'e' :: rest) = some (.jbool true, rest) := by
  conv_lhs => rw [parseVal.eq_def]
  simp

theorem parseVal_false (fuel : Nat) (rest : List Char) :
    parseVal (fuel + 1) ('f' :: 'a' :: 'l' :: 's' :: 'e' :: rest) = some (.jbool false, rest) := by
  conv_lhs => rw [parseVal.eq_def]
  simp

theorem parseElems_rbracket (fuel : Nat) (cs : List Char) :
    parseElems (fuel + 1) (']' :: cs) = some ([], cs) := by
  conv_lhs => rw [parseElems.eq_def]
  simp

theorem parseElems_cons (fuel : Nat) (c : Char) (cs : List Char) (h : c ≠ ']') :
    parseElems (fuel + 1) (c :: cs)
      = match parseVal fuel (c :: cs) with
        | some (x, rest) =>
          match rest with
          | ',' :: rest2 =>
            match parseElems fuel rest2 with
            | some (xs, r) => some (x :: xs, r)
            | none => none
          | ']' :: rest2 => some ([x], rest2)
          | _ => none
        | none => none := by
  conv_lhs => rw [parseElems.eq_def]
  simp [h]

theorem parseFields_rbrace (fuel : Nat) (cs : List Char) :
    parseFields (fuel + 1) ('}' :: cs) = some ([], cs) := by
  conv_lhs => rw [parseFields.eq_def]
  simp

theorem parseFields_quote (fuel : Nat) (cs : List Char) :
    parseFields (fuel + 1) ('"' :: cs)
      = match parseStringBody cs with
        | some (k, rest1) =>
          match rest1 with
          | ':' :: rest2 =>
            match parseVal fuel rest2 with
            | some (v, rest3) =>
              match rest3 with
              | ',' :: rest4 =>
                match parseFields fuel rest4 with
                | some (fs, r) => some ((String.mk k, v) :: fs, r)
                | none => none
              | '}' :: rest4 => some ([(String.mk k, v)], rest4)
              | _ => none
            | none => none
          | _ => none
        | none => none := by
  conv_lhs => rw [parseFields.eq_def]
  simp
theorem stringifyVal_head (j : Json) :
    ∃ c cs', stringifyVal j = c :: cs' ∧ c ≠ ']' := by
  cases j with
  | jnull => exact ⟨'n', _, rfl, by decide⟩
  | jbool b =>
    cases b
    · exact ⟨'f', _, rfl, by decide⟩
    · exact ⟨'t', _, rfl, by decide⟩
  | jnum n =>
    by_cases hn : n < 0
    · exact ⟨'-', natDigits (n.natAbs + 1) n.natAbs,
        by simp [stringifyVal, intToChars, hn], by decide⟩
    · obtain ⟨hne, hdig, -⟩ :=
        natDigits_spec (n.natAbs + 1) n.natAbs (Nat.lt_succ_self _)
      cases hD : natDigits (n.natAbs + 1) n.natAbs with
      | nil => exact absurd hD hne
      | cons d ds =>
        refine ⟨d, ds, by simp [stringifyVal, intToChars, hn, hD], ?_⟩
        exact (isDigit_ne d (hdig d (by rw [hD]; simp))).1
  | jstr s => exact ⟨'"', _, rfl, by decide⟩
  | jarr xs => exact ⟨'[', _, rfl, by decide⟩
  | jobj fs => exact ⟨'{', _, rfl, by decide⟩

theorem wfArr_cons (x : Json) (t : List Json) (h : wfArr (x :: t) = true) :
    wfJson x = true ∧ wfArr t = true := by
  simp only [wfArr, Bool.and_eq_true] at h
  exact h

theorem wfObj_cons (kv : String × Json) (t : List (String × Json))
    (h : wfObj (kv :: t) = true) :
    wfString kv.1 = true ∧ wfJson kv.2 = true ∧ wfObj t = true := by
  obtain ⟨k, v⟩ := kv
  simp only [wfObj, Bool.and_eq_true] at h
  tauto

theorem parse_stringify : ∀ fuel : Nat,
    (∀ j rest, wfJson j = true → isDelim rest = true →
      2 * (stringifyVal j).length + 1 ≤ fuel →
      parseVal fuel (stringifyVal j ++ rest) = some (j, rest)) ∧
    (∀ xs rest, wfArr xs = true →
      2 * (stringifyArr xs).length + 2 ≤ fuel →
      parseElems fuel (stringifyArr xs ++ ']' :: rest) = some (xs, rest)) ∧
    (∀ fs rest, wfObj fs = true →
      2 * (stringifyObj fs).length + 2 ≤ fuel →
      parseFields fuel (stringifyObj fs ++ '}' :: rest) = some (fs, rest)) := by
  intro fuel
  induction fuel using Nat.strong_induction_on with
  | _ fuel ih =>
  refine ⟨?_, ?_, ?_⟩
  · intro j rest hwf hdelim hfuel
    obtain ⟨f, rfl⟩ : ∃ f, fuel = f + 1 := ⟨fuel - 1, by omega⟩
    cases j with
    | jnull => exact parseVal_null f rest
    | jbool b =>
      cases b
      · exact parseVal_false f rest
      · exact parseVal_true f rest
    | jnum n =>
      by_cases hn : n < 0
      · obtain ⟨hne, hdig, hval⟩ :=
          natDigits_spec (n.natAbs + 1) n.natAbs (Nat.lt_succ_self _)
        have hsv : stringifyVal (.jnum n) = '-' :: natDigits (n.natAbs + 1) n.natAbs := by
          simp [stringifyVal, intToChars, hn]
        rw [hsv, List.cons_append, parseVal_minus,
          takeDigits_append _ _ hdig (takeDigits_delim rest hdelim)]
        cases hD : natDigits (n.natAbs + 1) n.natAbs with
        | nil => exact absurd hD hne
        | cons d ds =>
          rw [hD] at hval
          have hcast : -((digitsVal (d :: ds) : Nat) : Int) = n := by
            rw [hval]
            omega
          simp [hcast]
      · obtain ⟨hne, hdig, hval⟩ :=
          natDigits_spec (n.natAbs + 1) n.natAbs (Nat.lt_succ_self _)
        have hsv : stringifyVal (.jnum n) = natDigits (n.natAbs + 1) n.natAbs := by
          simp [stringifyVal, intToChars, hn]
        cases hD : natDigits (n.natAbs + 1) n.natAbs with
        | nil => exact absurd hD hne
        | cons d ds =>
          rw [hD] at hval hdig hsv
          have hd : d.isDigit = true := hdig d (by simp)
          rw [hsv, List.cons_append, parseVal_digit f d _ hd, ← List.cons_append,
            takeDigits_append _ _ hdig (takeDigits_delim rest hdelim)]
          have hcast : ((digitsVal (d :: ds) : Nat) : Int) = n := by
            rw [hval]
            omega
          simp [hcast]
    | jstr s =>
      have hsv : stringifyVal (.jstr s) ++ rest
          = '"' :: ((s.data.map escapeChar).flatten ++ '"' :: rest) := by
        simp [stringifyVal, stringifyStr]
      rw [hsv, parseVal_quote, parseStringBody_escape]
    | jarr xs =>
      have hsv : stringifyVal (.jarr xs) ++ rest
          = '[' :: (stringifyArr xs ++ ']' :: rest) := by
        simp [stringifyVal]
      have hlen : (stringifyVal (.jarr xs)).length = (stringifyArr xs).length + 2 := by
        simp [stringifyVal]
      have hQ := (ih f (by omega)).2.1 xs rest (by simpa [wfJson] using hwf) (by omega)
      rw [hsv, parseVal_lbracket, hQ]
    | jobj fs =>
      have hsv : stringifyVal (.jobj fs) ++ rest
          = '{' :: (stringifyObj fs ++ '}' :: rest) := by
        simp [stringifyVal]
      have hlen : (stringifyVal (.jobj fs)).length = (stringifyObj fs).length + 2 := by
        simp [stringifyVal]
      have hR := (ih f (by omega)).2.2 fs rest (by simpa [wfJson] using hwf) (by omega)
      rw [hsv, parseVal_lbrace, hR]
  · intro xs rest hwf hfuel
    obtain ⟨f, rfl⟩ : ∃ f, fuel = f + 1 := ⟨fuel - 1, by omega⟩
    cases xs with
    | nil => exact parseElems_rbracket f rest
    | cons x tail =>
      cases tail with
      | nil =>
        obtain ⟨c, cs', hsv, hc⟩ := stringifyVal_head x
        have hwx : wfJson x = true := (wfArr_cons x [] hwf).1
        have hP := (ih f (by omega)).1 x (']' :: rest) hwx (by simp [isDelim])
          (by simp only [stringifyArr] at hfuel; omega)
        have harr : stringifyArr [x] ++ ']' :: rest = c :: (cs' ++ ']' :: rest) := by
          simp [stringifyArr, hsv]
        rw [harr, parseElems_cons f c _ hc, ← List.cons_append, ← hsv, hP]
        rfl
      | cons y ys =>
        obtain ⟨c, cs', hsv, hc⟩ := stringifyVal_head x
        have hwx : wfJson x = true := (wfArr_cons x (y :: ys) hwf).1
        have hwt : wfArr (y :: ys) = true := (wfArr_cons x (y :: ys) hwf).2
        have hlen : (stringifyArr (x :: y :: ys)).length
            = (stringifyVal x).length + 1 + (stringifyArr (y :: ys)).length := by
          simp [stringifyArr]
          omega
        have hP := (ih f (by omega)).1 x (',' :: (stringifyArr (y :: ys) ++ ']' :: rest))
          hwx (by simp [isDelim]) (by omega)
        have hQ := (ih f (by omega)).2.1 (y :: ys) rest hwt (by omega)
        have harr : stringifyArr (x :: y :: ys) ++ ']' :: rest
            = c :: (cs' ++ (',' :: (stringifyArr (y :: ys) ++ ']' :: rest))) := by
          simp [stringifyArr, hsv]
        rw [harr, parseElems_cons f c _ hc, ← List.cons_append, ← hsv, hP]
        simp only [hQ]
  · intro fs rest hwf hfuel
    obtain ⟨f, rfl⟩ : ∃ f, fuel = f + 1 := ⟨fuel - 1, by omega⟩
    cases fs with
    | nil => exact parseFields_rbrace f rest
    | cons kv tail =>
      obtain ⟨k, v⟩ := kv
      cases tail with
      | nil =>
        have hwv : wfJson v = true := (wfObj_cons (k, v) [] hwf).2.1
        have hlen : (stringifyObj [(k, v)]).length
            = (stringifyStr k).length + 1 + (stringifyVal v).length := by
          simp [stringifyObj]
          omega
        have hP := (ih f (by omega)).1 v ('}' :: rest) hwv (by simp [isDelim])
          (by simp only [stringifyStr, List.length_cons, List.length_append] at hlen; omega)
        have hobj : stringifyObj [(k, v)] ++ '}' :: rest
            = '"' :: ((k.data.map escapeChar).flatten
                ++ '"' :: (':' :: (stringifyVal v ++ '}' :: rest))) := by
          simp [stringifyObj, stringifyStr]
        rw [hobj, parseFields_quote, parseStringBody_escape]
        simp only [hP]
      | cons kv2 tail2 =>
        have hwk : wfJson v = true := (wfObj_cons (k, v) (kv2 :: tail2) hwf).2.1
        have hwt : wfObj (kv2 :: tail2) = true := (wfObj_cons (k, v) (kv2 :: tail2) hwf).2.2
        have hlen : (stringifyObj ((k, v) :: kv2 :: tail2)).length
            = (stringifyStr k).length + 1 + (stringifyVal v).length + 1
              + (stringifyObj (kv2 :: tail2)).length := by
          simp [stringifyObj]
          omega
        have hlenstr : (stringifyStr k).length
            = (k.data.map escapeChar).flatten.length + 2 := by
          simp [stringifyStr]
        have hP := (ih f (by omega)).1 v
          (',' :: (stringifyObj (kv2 :: tail2) ++ '}' :: rest)) hwk
          (by simp [isDelim]) (by omega)
        have hR := (ih f (by omega)).2.2 (kv2 :: tail2) rest hwt (by omega)
        have hobj : stringifyObj ((k, v) :: kv2 :: tail2) ++ '}' :: rest
            = '"' :: ((k.data.map escapeChar).flatten
                ++ '"' :: (':' :: (stringifyVal v
                  ++ ',' :: (stringifyObj (kv2 :: tail2) ++ '}' :: rest)))) := by
          simp [stringifyObj, stringifyStr]
        rw [hobj, parseFields_quote, parseStringBody_escape]
        simp only [hP, hR]
theorem natDigits_lt256 (fuel : Nat) : ∀ n : Nat, n < fuel →
    ∀ c ∈ natDigits fuel n, c.toNat < 256 := by
  intro n h c hc
  have hd := (natDigits_spec fuel n h).2.1 c hc
  have : c.toNat < 128 := by
    revert hd
    simp only [Char.isDigit]
    intro hd
    simp only [Bool.and_eq_true, decide_eq_true_eq] at hd
    calc c.toNat ≤ '9'.toNat := hd.2
    _ < 128 := by decide
  omega

theorem intToChars_lt256 (n : Int) : ∀ c ∈ intToChars n, c.toNat < 256 := by
  intro c hc
  by_cases hn : n < 0 <;> simp only [intToChars, hn, if_true, if_false] at hc
  · rcases List.mem_cons.mp hc with rfl | hc
    · decide
    · exact natDigits_lt256 _ _ (Nat.lt_succ_self _) c hc
  · exact natDigits_lt256 _ _ (Nat.lt_succ_self _) c hc

theorem stringifyStr_lt256 (s : String) (h : wfString s = true) :
    ∀ c ∈ stringifyStr s, c.toNat < 256 := by
  intro c hc
  rw [show stringifyStr s
      = '"' :: ((s.data.map escapeChar).flatten ++ ['"']) from rfl] at hc
  rcases List.mem_cons.mp hc with rfl | hc
  · decide
  rcases List.mem_append.mp hc with hc | hc
  swap
  · simp only [List.mem_singleton] at hc
    subst hc
    decide
  · obtain ⟨l, hl, hcl⟩ := List.mem_flatten.mp hc
    obtain ⟨c0, hc0, rfl⟩ := List.mem_map.mp hl
    have hw : wfChar c0 = true := by
      simp only [wfString, List.all_eq_true] at h
      exact h c0 hc0
    simp only [wfChar, Bool.and_eq_true, decide_eq_true_eq] at hw
    have hcases : c = '\\' ∨ c = '"' ∨ c = c0 := by
      revert hcl
      simp only [escapeChar]
      split
      · intro h0
        simp only [List.mem_cons, List.mem_singleton, List.not_mem_nil, or_false] at h0
        tauto
      · split
        · intro h0
          simp only [List.mem_cons, List.mem_singleton, List.not_mem_nil, or_false] at h0
          tauto
        · intro h0
          simp only [List.mem_singleton] at h0
          tauto
    rcases hcases with rfl | rfl | rfl
    · decide
    · decide
    · exact hw.2

mutual

theorem stringifyVal_lt256 : ∀ j, wfJson j = true → ∀ c ∈ stringifyVal j, c.toNat < 256
  | .jnull, _, c, hc => by
    rcases hc with _ | ⟨_, _ | ⟨_, _ | ⟨_, _ | ⟨_, h0⟩⟩⟩⟩ <;> first | decide | cases h0
  | .jbool true, _, c, hc => by
    rcases hc with _ | ⟨_, _ | ⟨_, _ | ⟨_, _ | ⟨_, h0⟩⟩⟩⟩ <;> first | decide | cases h0
  | .jbool false, _, c, hc => by
    rcases hc with _ | ⟨_, _ | ⟨_, _ | ⟨_, _ | ⟨_, _ | ⟨_, h0⟩⟩⟩⟩⟩ <;> first | decide | cases h0
  | .jnum n, _, c, hc => intToChars_lt256 n c hc
  | .jstr s, hwf, c, hc => stringifyStr_lt256 s (by simpa [wfJson] using hwf) c hc
  | .jarr xs, hwf, c, hc => by
    rcases List.mem_cons.mp hc with rfl | hc
    · decide
    · rcases List.mem_append.mp hc with hc | hc
      · exact stringifyArr_lt256 xs (by simpa [wfJson] using hwf) c hc
      · simp only [List.mem_singleton] at hc
        subst hc
        decide
  | .jobj fs, hwf, c, hc => by
    rcases List.mem_cons.mp hc with rfl | hc
    · decide
    · rcases List.mem_append.mp hc with hc | hc
      · exact stringifyObj_lt256 fs (by simpa [wfJson] using hwf) c hc
      · simp only [List.mem_singleton] at hc
        subst hc
        decide

theorem stringifyArr_lt256 : ∀ xs, wfArr xs = true → ∀ c ∈ stringifyArr xs, c.toNat < 256
  | [], _, c, hc => by cases hc
  | [x], hwf, c, hc => stringifyVal_lt256 x (wfArr_cons x [] hwf).1 c hc
  | x :: y :: ys, hwf, c, hc => by
    rw [show stringifyArr (x :: y :: ys)
        = stringifyVal x ++ ',' :: stringifyArr (y :: ys) from rfl] at hc
    rcases List.mem_append.mp hc with hc | hc
    · exact stringifyVal_lt256 x (wfArr_cons x (y :: ys) hwf).1 c hc
    · rcases List.mem_cons.mp hc with rfl | hc
      · decide
      · exact stringifyArr_lt256 (y :: ys) (wfArr_cons x (y :: ys) hwf).2 c hc

theorem stringifyObj_lt256 : ∀ fs, wfObj fs = true → ∀ c ∈ stringifyObj fs, c.toNat < 256
  | [], _, c, hc => by cases hc
  | [(k, v)], hwf, c, hc => by
    rw [show stringifyObj [(k, v)] = stringifyStr k ++ ':' :: stringifyVal v from rfl] at hc
    rcases List.mem_append.mp hc with hc | hc
    · exact stringifyStr_lt256 k (wfObj_cons (k, v) [] hwf).1 c hc
    · rcases List.mem_cons.mp hc with rfl | hc
      · decide
      · exact stringifyVal_lt256 v (wfObj_cons (k, v) [] hwf).2.1 c hc
  | (k, v) :: f2 :: t2, hwf, c, hc => by
    rw [show stringifyObj ((k, v) :: f2 :: t2)
        = (stringifyStr k ++ ':' :: stringifyVal v) ++ ',' :: stringifyObj (f2 :: t2)
        from rfl] at hc
    rcases List.mem_append.mp hc with hc | hc
    · rcases List.mem_append.mp hc with hc | hc
      · exact stringifyStr_lt256 k (wfObj_cons (k, v) (f2 :: t2) hwf).1 c hc
      · rcases List.mem_cons.mp hc with rfl | hc
        · decide
        · exact stringifyVal_lt256 v (wfObj_cons (k, v) (f2 :: t2) hwf).2.1 c hc
    · rcases List.mem_cons.mp hc with rfl | hc
      · decide
      · exact stringifyObj_lt256 (f2 :: t2) (wfObj_cons (k, v) (f2 :: t2) hwf).2.2 c hc

end
/-- The JSON object `generateWatchPartyURL` builds for one favorite team:
`{name, id, league, sport, espnPath, logo}`. -/
def teamToJson (t : Team) : Json :=
  .jobj [("name", .jstr t.name), ("id", .jstr t.id), ("league", .jstr t.league),
         ("sport", .jstr t.sport), ("espnPath", .jstr t.espnPath), ("logo", .jstr t.logo)]

/-- A watch-party settings/team snapshot, the payload shape
`{teams, bigGames, showPreseason, mustWatch}` that
`generateWatchPartyURL` passes to `encodeWatchParty`. -/
structure WPSnapshot where
  teams : List Team
  bigGames : List (String × List String)
  showPreseason : Bool
  mustWatch : List String

/-- The snapshot as the JSON value `generateWatchPartyURL` serializes. -/
def snapshotToJson (x : WPSnapshot) : Json :=
  .jobj [("teams", .jarr (x.teams.map teamToJson)),
         ("bigGames", .jobj (x.bigGames.map fun p => (p.1, .jarr (p.2.map Json.jstr)))),
         ("showPreseason", .jbool x.showPreseason),
         ("mustWatch", .jarr (x.mustWatch.map Json.jstr))]

/-- Decoding inverts encoding for every well-formed JSON value. -/
theorem encode_decode_roundtrip (j : Json) (hwf : wfJson j = true) :
    (encodeWatchParty j).bind decodeWatchParty = some j := by
  have hbytes : ∀ c ∈ (String.mk (stringifyVal j)).data, c.toNat < 256 := by
    intro c hc
    exact stringifyVal_lt256 j hwf c hc
  obtain ⟨henc, hdec⟩ := atobJS_btoaJS (String.mk (stringifyVal j)) hbytes
  rw [encodeWatchParty, henc, Option.some_bind]
  simp only [decodeWatchParty, hdec]
  have hP := (parse_stringify (2 * (stringifyVal j).length + 2)).1 j [] hwf rfl (by omega)
  rw [List.append_nil] at hP
  simp only [parseJSON]
  rw [hP]

/-- C8: for every well-formed watch-party snapshot
`{teams, bigGames, showPreseason, mustWatch}`,
`decodeWatchParty(encodeWatchParty(x))` returns exactly `x`'s JSON value,
and a malformed token decodes to null rather than throwing (here the
concrete non-base64 token `"%"`; `decodeWatchParty` is total). -/
theorem watch_party_roundtrip (x : WPSnapshot)
    (hwf : wfJson (snapshotToJson x) = true) :
    (encodeWatchParty (snapshotToJson x)).bind decodeWatchParty
      = some (snapshotToJson x) ∧
    decodeWatchParty "%" = none :=
  ⟨encode_decode_roundtrip (snapshotToJson x) hwf, rfl⟩

/-- The favorite team of C8's witness snapshot. -/
def wpSampleTeam : Team :=
  { name := "Everton"
    id := "368"
    league := "premier-league"
    sport := "soccer"
    espnPath := "soccer/eng.1"
    logo := "https://a.espncdn.com/i/teamlogos/soccer/500/368.png" }

/-- A concrete snapshot for C8's witness. -/
def wpSampleSnapshot : WPSnapshot :=
  { teams := [wpSampleTeam]
    bigGames := [("premier-league", ["rob-lowe", "playoff-preview"])]
    showPreseason := true
    mustWatch := ["soccer-368"] }

/-- Witness for C8 at a concrete snapshot. -/
theorem watch_party_roundtrip_witness :
    wfJson (snapshotToJson wpSampleSnapshot) = true ∧
    ((encodeWatchParty (snapshotToJson wpSampleSnapshot)).bind decodeWatchParty
      = some (snapshotToJson wpSampleSnapshot) ∧
    decodeWatchParty "%" = none) :=
  ⟨rfl, watch_party_roundtrip wpSampleSnapshot rfl⟩
end SportsTracker
